import Mathlib

/-!
Verification of the Monte Carlo risk-quantification core of the
risk-quant-engine repository (src/risk_mc): distribution sampling,
annual-loss simulation, portfolio aggregation, risk metrics (VaR, TVaR,
marginal tail contribution), loss-exceedance curves, and the register
quantifiers.

Modelling conventions of the shallow embedding:
* Python/numpy floats are modelled as exact rationals (ℚ); the claims under
  study are stated up to floating-point tolerance, so exact arithmetic is the
  intended reading.
* numpy arrays and pandas columns are modelled as `List ℚ`.
* Functions that can raise (`raise ValueError`, Python ZeroDivisionError,
  IndexError) return `Except String α`; the error string echoes the message
  of the source.
* The pseudo-random primitives of numpy (`Generator.poisson`,
  `Generator.lognormal`, ...) are external library code: they are modelled by
  an explicit oracle (`Oracle`) of deterministic draw streams indexed by the
  generator key (the seed) and the number of draws consumed so far.  Every
  theorem quantifies over the oracle, so nothing depends on the concrete
  values drawn, only on the structure of the source code.
* `np.std` returns a square root, which ℚ lacks; wherever the source compares
  `np.std(x) > 0` or stores a std, the embedding uses the population variance
  (`np_var_pop`), and `np.std(x) > 0  ↔  np_var_pop x > 0` since `Real.sqrt`
  is positive exactly on positive arguments.  No claim depends on the value
  of a standard deviation, only on its positivity.
-/

namespace RiskMC

/-- Model of `np.sort` (ascending sort of a float array). -/
def np_sort (xs : List ℚ) : List ℚ :=
  List.insertionSort (fun a b => a ≤ b) xs

/-- Model of `np.percentile(xs, q)` with the default linear-interpolation
method: with `b` the sorted data of length `n`, the virtual index is
`pos = q/100 * (n-1)`; the result interpolates linearly between the two
neighbouring order statistics, with the last one used when the upper
neighbour would fall outside the array.  (numpy raises on an empty array;
the claims under study only apply it to non-empty data.) -/
def np_percentile (xs : List ℚ) (q : ℚ) : ℚ :=
  let b := np_sort xs
  let n := b.length
  let pos : ℚ := q / 100 * ((n : ℚ) - 1)
  let i : ℕ := (Int.floor pos).toNat
  if i + 1 < n then
    b.getD i 0 + (pos - (i : ℚ)) * (b.getD (i + 1) 0 - b.getD i 0)
  else
    b.getD (n - 1) 0

/-- Model of `np.mean` (numpy returns NaN on an empty array; the embedding
returns 0 there and every use either guards emptiness or maps NaN to 0 the
way the source does). -/
def np_mean (xs : List ℚ) : ℚ :=
  xs.sum / (xs.length : ℚ)

/-- Model of `np.median` (numpy's median equals the 50th linear-interpolation
percentile). -/
def np_median (xs : List ℚ) : ℚ :=
  np_percentile xs 50

/-- The square of `np.std(xs)` (population variance).  `np.std xs > 0` holds
iff `np_var_pop xs > 0`, which is how every comparison against a std is
embedded. -/
def np_var_pop (xs : List ℚ) : ℚ :=
  np_mean (xs.map (fun x => (x - np_mean xs) ^ 2))

/-! ## src/risk_mc/metrics.py -/

/-- `metrics.var(losses, confidence)`: validates `0 < confidence < 1`, then
returns `np.percentile(losses, confidence * 100)`. -/
def var (losses : List ℚ) (confidence : ℚ) : Except String ℚ :=
  if ¬(0 < confidence ∧ confidence < 1) then
    .error "Confidence must be in (0, 1)"
  else
    .ok (np_percentile losses (confidence * 100))

/-- `metrics.tvar(losses, confidence)`: validates the confidence, computes the
VaR threshold, and averages the losses at or above it; if no loss qualifies
it falls back to the threshold itself. -/
def tvar (losses : List ℚ) (confidence : ℚ) : Except String ℚ :=
  if ¬(0 < confidence ∧ confidence < 1) then
    .error "Confidence must be in (0, 1)"
  else
    match var losses confidence with
    | .error e => .error e
    | .ok var_threshold =>
      let tail_losses := losses.filter (fun x => var_threshold ≤ x)
      if tail_losses.length = 0 then
        .ok var_threshold
      else
        .ok (np_mean tail_losses)

/-- `metrics.marginal_contribution_to_var(by_risk_losses, portfolio_losses, q)`.
The dict of per-risk arrays is an association list in insertion order.  For
each risk (the key "portfolio" is skipped): when both the portfolio tail
indicator and the risk's losses have positive std, the contribution is the
mean of the risk's losses over the trials flagged by the tail indicator
(`np.mean` of an empty selection is NaN, which the source maps to 0.0);
otherwise the contribution is 0.  The source also computes `np.corrcoef` of
the indicator and the risk losses, but never uses the value, so the dead
assignment is not modelled. -/
def marginal_contribution_to_var (by_risk_losses : List (String × List ℚ))
    (portfolio_losses : List ℚ) (q : ℚ) : Except String (List (String × ℚ)) :=
  match var portfolio_losses q with
  | .error e => .error e
  | .ok portfolio_var =>
    let tail_indicator : List ℚ :=
      portfolio_losses.map (fun x => if portfolio_var ≤ x then 1 else 0)
    .ok (by_risk_losses.filterMap (fun rl =>
      if rl.1 = "portfolio" then
        none
      else if 0 < np_var_pop tail_indicator ∧ 0 < np_var_pop rl.2 then
        let sel : List ℚ := (rl.2.zip tail_indicator).filterMap
          (fun p => if p.2 = 1 then some p.1 else none)
        some (rl.1, if sel.length = 0 then 0 else np_mean sel)
      else
        some (rl.1, 0)))

/-! ## src/risk_mc/lec.py -/

/-- Model of `np.linspace(a, b, k)`: `k` evenly spaced points from `a` to `b`
inclusive. -/
def np_linspace (a b : ℚ) (k : ℕ) : List ℚ :=
  if k = 1 then
    [a]
  else
    (List.range k).map (fun i => a + (b - a) * (i : ℚ) / ((k : ℚ) - 1))

/-- Model of `DataFrame.sort_values("prob", ascending=False)` on rows of
(prob, loss). -/
def sort_prob_desc (rows : List (ℚ × ℚ)) : List (ℚ × ℚ)  :=
  List.insertionSort (fun a b => b.1 ≤ a.1) rows

/-- The `for p in probs` loop of `lec_points`: each probability is validated
to lie in [0, 1], then paired with the `(1-p)*100` percentile of the sorted
losses (`np.percentile` raises on an empty array). -/
def lecProbRows (sorted_losses : List ℚ) : List ℚ → Except String (List (ℚ × ℚ))
  | [] => .ok []
  | p :: rest =>
    if ¬(0 ≤ p ∧ p ≤ 1) then
      .error "Probability must be in [0, 1]"
    else if sorted_losses.length = 0 then
      .error "attempt to get percentile of empty data"
    else
      match lecProbRows sorted_losses rest with
      | .error e => .error e
      | .ok rs => .ok ((p, np_percentile sorted_losses ((1 - p) * 100)) :: rs)

/-- `lec.lec_points(losses, probs, n_points)`.  Rows are (prob, loss).  With
explicit probabilities each row holds the `(1-p)` percentile; otherwise
`n_points` thresholds are spread evenly from min to max and each is paired
with its empirical exceedance probability, except that a zero-range array
returns the two-point curve immediately (before the final sort, which the
early return skips).  `sorted_losses[0]` on an empty array raises IndexError. -/
def lec_points (losses : List ℚ) (probs : Option (List ℚ)) (n_points : ℕ) :
    Except String (List (ℚ × ℚ)) :=
  let sorted_losses := np_sort losses
  let n := sorted_losses.length
  match probs with
  | some ps =>
    match lecProbRows sorted_losses ps with
    | .error e => .error e
    | .ok results => .ok (sort_prob_desc results)
  | none =>
    match sorted_losses with
    | [] => .error "index 0 is out of bounds"
    | m :: _ =>
      let min_loss := m
      let max_loss := sorted_losses.getLastD 0
      if min_loss = max_loss then
        .ok [(1, min_loss), (0, min_loss)]
      else
        let thresholds := np_linspace min_loss max_loss n_points
        let results := thresholds.map (fun threshold =>
          (((sorted_losses.countP (fun x => threshold ≤ x)) : ℚ) / (n : ℚ), threshold))
        .ok (sort_prob_desc results)

/-! ## src/risk_mc/distributions.py

The numpy random generator is modelled by a state `(key, pos)`: the key is
the seed the generator was constructed from, `pos` the number of draws
consumed.  The draw values themselves come from an `Oracle` of fixed
deterministic streams — one per numpy primitive — indexed by `(key, pos)` and
the distribution parameters.  A batch draw of size `n` yields the stream
values at positions `pos, pos+1, ..., pos+n-1` and advances `pos` by `n`.
This captures exactly what the source relies on: draws are a deterministic
function of the seed and of the sampling history, and nothing else. -/

/-- Deterministic draw streams standing for numpy's random primitives. -/
structure Oracle where
  poissonDraw : ℕ → ℕ → ℚ → ℕ
  negbinDraw : ℕ → ℕ → ℚ → ℚ → ℕ
  lognormalDraw : ℕ → ℕ → ℚ → ℚ → ℚ
  normalDraw : ℕ → ℕ → ℚ → ℚ → ℚ
  betaDraw : ℕ → ℕ → ℚ → ℚ → ℚ
  integers31 : ℕ → ℕ → ℕ

/-- State of one `np.random.Generator`. -/
structure Rng where
  key : ℕ
  pos : ℕ
deriving DecidableEq

/-- `np.random.default_rng(seed)`: a seeded generator is a pure function of
the seed; `default_rng(None)` keys the generator from OS entropy, modelled by
the explicit `ent` argument threaded by the callers. -/
def default_rng (seed : Option ℕ) (ent : ℕ) : Rng :=
  match seed with
  | some s => ⟨s, 0⟩
  | none => ⟨ent, 0⟩

/-- `sample_frequency_poisson(lam, n_sims, rng)`. -/
def sample_frequency_poisson (Ω : Oracle) (lam : ℚ) (n_sims : ℕ) (rng : Rng) :
    Except String (List ℕ × Rng) :=
  if lam < 0 then
    .error "Poisson lambda must be >= 0"
  else
    .ok ((List.range n_sims).map (fun i => Ω.poissonDraw rng.key (rng.pos + i) lam),
      ⟨rng.key, rng.pos + n_sims⟩)

/-- `sample_frequency_negbin(r, p, n_sims, rng)`. -/
def sample_frequency_negbin (Ω : Oracle) (r p : ℚ) (n_sims : ℕ) (rng : Rng) :
    Except String (List ℕ × Rng) :=
  if r ≤ 0 then
    .error "NegBin r must be > 0"
  else if ¬(0 < p ∧ p ≤ 1) then
    .error "NegBin p must be in (0, 1]"
  else
    .ok ((List.range n_sims).map (fun i => Ω.negbinDraw rng.key (rng.pos + i) r p),
      ⟨rng.key, rng.pos + n_sims⟩)

/-- `sample_severity_lognormal(mu, sigma, n_events, rng)`. -/
def sample_severity_lognormal (Ω : Oracle) (mu sigma : ℚ) (n_events : ℕ) (rng : Rng) :
    Except String (List ℚ × Rng) :=
  if sigma ≤ 0 then
    .error "Lognormal sigma must be > 0"
  else if n_events = 0 then
    .ok ([], rng)
  else
    .ok ((List.range n_events).map (fun i => Ω.lognormalDraw rng.key (rng.pos + i) mu sigma),
      ⟨rng.key, rng.pos + n_events⟩)

/-- `sample_severity_normal(mu, sigma, n_events, rng)`: draws are clamped to
`≥ 0` by `np.maximum(samples, 0)`. -/
def sample_severity_normal (Ω : Oracle) (mu sigma : ℚ) (n_events : ℕ) (rng : Rng) :
    Except String (List ℚ × Rng) :=
  if sigma ≤ 0 then
    .error "Normal sigma must be > 0"
  else if n_events = 0 then
    .ok ([], rng)
  else
    .ok ((List.range n_events).map (fun i => max (Ω.normalDraw rng.key (rng.pos + i) mu sigma) 0),
      ⟨rng.key, rng.pos + n_events⟩)

/-- `sample_severity_pert(min_val, mode, max_val, n_events, rng)`: validates
`min ≤ mode ≤ max`, returns the constant when `min = max`, otherwise maps the
standard PERT moments to Beta shape parameters (clamped below at 0.1) and
scales Beta draws into `[min, max]`.  The shape computation divides by
`(mode - mu) * (max_val - min_val)`; in Python that is float division, which
raises ZeroDivisionError when `mode` sits exactly at `(min + max) / 2`, so the
embedding returns that error in the same place. -/
def sample_severity_pert (Ω : Oracle) (min_val mode max_val : ℚ) (n_events : ℕ) (rng : Rng) :
    Except String (List ℚ × Rng) :=
  if ¬(min_val ≤ mode ∧ mode ≤ max_val) then
    .error "PERT requires min <= mode <= max"
  else if min_val = max_val then
    .ok (List.replicate n_events min_val, rng)
  else if n_events = 0 then
    .ok ([], rng)
  else
    let lam : ℚ := 4
    let mu := (min_val + lam * mode + max_val) / (lam + 2)
    let alphaE : Except String ℚ :=
      if mu = min_val then
        .ok 1
      else if (mode - mu) * (max_val - min_val) = 0 then
        .error "float division by zero"
      else
        .ok (((mu - min_val) * (2 * mode - min_val - max_val)) /
          ((mode - mu) * (max_val - min_val)))
    match alphaE with
    | .error e => .error e
    | .ok alpha0 =>
      let betaE : Except String ℚ :=
        if mu = max_val then
          .ok 1
        else if mu - min_val = 0 then
          .error "float division by zero"
        else
          .ok (alpha0 * (max_val - mu) / (mu - min_val))
      match betaE with
      | .error e => .error e
      | .ok beta0 =>
        let alpha := max alpha0 (1 / 10)
        let beta := max beta0 (1 / 10)
        .ok ((List.range n_events).map
          (fun i => min_val + Ω.betaDraw rng.key (rng.pos + i) alpha beta * (max_val - min_val)),
          ⟨rng.key, rng.pos + n_events⟩)

/-- Model of Python `str.lower()` (`String.toLower` character by character;
the model names in play are ASCII). -/
def pyLower (s : String) : String :=
  ⟨s.data.map Char.toLower⟩

/-- `sample_frequency(model, param1, param2, n_sims, rng)`: case-insensitive
dispatch on the model name; `param2 = None` is rejected for NegBin; an
unknown name raises. -/
def sample_frequency (Ω : Oracle) (model : String) (param1 : ℚ) (param2 : Option ℚ)
    (n_sims : ℕ) (rng : Rng) : Except String (List ℕ × Rng) :=
  let model_lower := pyLower model
  if model_lower = "poisson" then
    sample_frequency_poisson Ω param1 n_sims rng
  else if model_lower = "negbin" then
    match param2 with
    | none => .error "NegBin requires param2 (p)"
    | some p => sample_frequency_negbin Ω param1 p n_sims rng
  else
    .error ("Unknown frequency model: " ++ model)

/-- `sample_severity(model, param1, param2, param3, n_events, rng)`. -/
def sample_severity (Ω : Oracle) (model : String) (param1 param2 : ℚ) (param3 : Option ℚ)
    (n_events : ℕ) (rng : Rng) : Except String (List ℚ × Rng) :=
  let model_lower := pyLower model
  if model_lower = "lognormal" then
    sample_severity_lognormal Ω param1 param2 n_events rng
  else if model_lower = "normal" then
    sample_severity_normal Ω param1 param2 n_events rng
  else if model_lower = "pert" then
    match param3 with
    | none => .error "PERT requires param3 (max)"
    | some p3 => sample_severity_pert Ω param1 param2 p3 n_events rng
  else
    .error ("Unknown severity model: " ++ model)

/-! ## src/risk_mc/simulate.py -/

/-- One row of a risk register, as `simulate_annual_loss` reads it through
`risk_row.get(column, default)`: a `none` field stands for a missing column
(the `.get` default applies there). -/
structure RiskRow where
  riskID : Option String
  category : Option String
  description : Option String
  frequencyModel : Option String
  freqParam1 : Option ℚ
  freqParam2 : Option ℚ
  severityModel : Option String
  sevParam1 : Option ℚ
  sevParam2 : Option ℚ
  sevParam3 : Option ℚ
  controlEffectiveness : Option ℚ
  residualFactor : Option ℚ
deriving DecidableEq

/-- The per-trial loop of `simulate_annual_loss`: for each trial's event
count `k`, when `k > 0` it draws `k` severities, scales each by
`residual_factor * (1 - control_eff)` and sums; a trial with `k = 0` keeps
its `np.zeros` initialisation of exactly 0.  The generator state threads
through the severity draws. -/
def severityLoop (Ω : Oracle) (sev_model : String) (p1 p2 : ℚ) (p3 : Option ℚ)
    (residual_factor control_eff : ℚ) :
    List ℕ → Rng → Except String (List ℚ × Rng)
  | [], rng => .ok ([], rng)
  | k :: ks, rng =>
    if 0 < k then
      match sample_severity Ω sev_model p1 p2 p3 k rng with
      | .error e => .error e
      | .ok (severities, rng1) =>
        let effective_severities := severities.map
          (fun s => s * residual_factor * (1 - control_eff))
        match severityLoop Ω sev_model p1 p2 p3 residual_factor control_eff ks rng1 with
        | .error e => .error e
        | .ok (rest, rng2) => .ok (effective_severities.sum :: rest, rng2)
    else
      match severityLoop Ω sev_model p1 p2 p3 residual_factor control_eff ks rng with
      | .error e => .error e
      | .ok (rest, rng1) => .ok ((0 : ℚ) :: rest, rng1)

/-- `simulate.simulate_annual_loss(risk_row, n_sims, seed)`: builds a fresh
generator from the seed (`ent` models the OS entropy consumed when the seed
is None), reads the row's parameters with their `.get` defaults, validates
the two control fractions, samples the event counts, then runs the per-trial
severity loop. -/
def simulate_annual_loss (Ω : Oracle) (risk_row : RiskRow) (n_sims : ℕ)
    (seed : Option ℕ) (ent : ℕ) : Except String (List ℚ) :=
  let rng := default_rng seed ent
  let freq_model := risk_row.frequencyModel.getD "Poisson"
  let freq_param1 := risk_row.freqParam1.getD 1
  let freq_param2 := risk_row.freqParam2
  let sev_model := risk_row.severityModel.getD "Lognormal"
  let sev_param1 := risk_row.sevParam1.getD 10
  let sev_param2 := risk_row.sevParam2.getD 1
  let sev_param3 := risk_row.sevParam3
  let residual_factor := risk_row.residualFactor.getD 1
  let control_eff := risk_row.controlEffectiveness.getD 0
  if ¬(0 ≤ residual_factor ∧ residual_factor ≤ 1) then
    .error "ResidualFactor must be in [0, 1]"
  else if ¬(0 ≤ control_eff ∧ control_eff ≤ 1) then
    .error "ControlEffectiveness must be in [0, 1]"
  else
    match sample_frequency Ω freq_model freq_param1 freq_param2 n_sims rng with
    | .error e => .error e
    | .ok (event_counts, rng1) =>
      match severityLoop Ω sev_model sev_param1 sev_param2 sev_param3
          residual_factor control_eff event_counts rng1 with
      | .error e => .error e
      | .ok (annual_losses, _) => .ok annual_losses

/-- Element-wise `+=` of two equal-length loss arrays (numpy broadcast sum). -/
def addVec (a b : List ℚ) : List ℚ :=
  List.zipWith (· + ·) a b

/-- Python dict assignment `d[k] = v` on an insertion-ordered association
list: an existing key keeps its position and gets the new value, a new key
is appended. -/
def dictInsert (l : List (String × List ℚ)) (k : String) (v : List ℚ) :
    List (String × List ℚ) :=
  if l.any (fun e => e.1 = k) then
    l.map (fun e => if e.1 = k then (k, v) else e)
  else
    l ++ [(k, v)]

/-- The per-risk loop of `simulate_portfolio`: simulates each row with its
pre-derived sub-seed, stores the array under the "by_risk:" + RiskID dict key
(`risk_row.get("RiskID", f"Risk_idx")`), and accumulates the portfolio
total.  `ents` supplies one OS-entropy value per call index for the unseeded
case. -/
def portfolioLoop (Ω : Oracle) (ents : ℕ → ℕ) (n_sims : ℕ) :
    List (RiskRow × Option ℕ) → ℕ → List (String × List ℚ) → List ℚ →
    Except String (List (String × List ℚ) × List ℚ)
  | [], _, results, portfolio_total => .ok (results, portfolio_total)
  | (risk_row, sd) :: rest, idx, results, portfolio_total =>
    let risk_id := risk_row.riskID.getD ("Risk_" ++ toString idx)
    match simulate_annual_loss Ω risk_row n_sims sd (ents idx) with
    | .error e => .error e
    | .ok risk_losses =>
      portfolioLoop Ω ents n_sims rest (idx + 1)
        (dictInsert results ("by_risk:" ++ risk_id) risk_losses)
        (addVec portfolio_total risk_losses)

/-- `simulate.simulate_portfolio(register_df, n_sims, seed)`: rejects an
empty register; when a base seed is given it derives one sub-seed per risk
up front via `base_rng.integers(0, 2**31, size=len(register_df))`, otherwise
every risk simulates unseeded; returns the portfolio total (the DataFrame
column inserted at position 0) together with the per-risk columns. -/
def simulate_portfolio (Ω : Oracle) (ents : ℕ → ℕ) (register : List RiskRow)
    (n_sims : ℕ) (seed : Option ℕ) :
    Except String (List ℚ × List (String × List ℚ)) :=
  if register.length = 0 then
    .error "Risk register is empty"
  else
    let risk_seeds : List (Option ℕ) :=
      match seed with
      | some s => (List.range register.length).map (fun i => some (Ω.integers31 s i))
      | none => List.replicate register.length none
    match portfolioLoop Ω ents n_sims (register.zip risk_seeds) 0 []
        (List.replicate n_sims 0) with
    | .error e => .error e
    | .ok (results, portfolio_total) => .ok (portfolio_total, results)

/-! ## Python string primitives used for the "by_risk:" column convention -/

/-- Replace every occurrence of `pat` in the character list, left to right
(the recursion of Python `str.replace`).  The fuel argument only serves
structural termination: each step consumes at least one character, so any
fuel of at least the list's length never runs out.  Never called with an
empty pattern. -/
def replaceAllAux (pat rep : List Char) : ℕ → List Char → List Char
  | 0, l => l
  | _ + 1, [] => []
  | fuel + 1, c :: rest =>
    if pat ≠ [] ∧ pat.isPrefixOf (c :: rest) then
      rep ++ replaceAllAux pat rep fuel (rest.drop (pat.length - 1))
    else
      c :: replaceAllAux pat rep fuel rest

/-- Model of Python `s.replace(pat, rep)`: replaces all occurrences. -/
def pyReplace (s pat rep : String) : String :=
  ⟨replaceAllAux pat.data rep.data s.data.length s.data⟩

/-- Model of Python `s.startswith(pat)`. -/
def pyStartsWith (s pat : String) : Bool :=
  pat.data.isPrefixOf s.data

/-! ## src/risk_mc/io.py -/

/-- A risk-register DataFrame: its column list (pandas column index) and its
rows.  A column may be absent from `cols`, which is what the
`"X" in df.columns` guards of the source test; a cell of a present column may
still be missing, which the `Option` fields of `RiskRow` model. -/
structure RegisterFrame where
  cols : List String
  rows : List RiskRow

/-- `io.validate_register_format(df)`: collects one error per missing
required column, plus one if the register has no rows. -/
def validate_register_format (frame : RegisterFrame) : Bool × List String :=
  let required_cols := ["RiskID", "FrequencyModel", "FreqParam1",
    "SeverityModel", "SevParam1", "SevParam2"]
  let missing := (required_cols.filter (fun c => ¬ frame.cols.contains c)).map
    (fun c => "Missing required column: " ++ c)
  let errors := if frame.rows.length = 0 then missing ++ ["Register is empty"] else missing
  (errors.length = 0, errors)

/-- The ten `Sim*` metric columns that `io.quantify_register` (and its
portfolio-total row) attaches to a loss array.  `simStdSq` carries the square
of `np.std` (see the header note on ℚ and square roots). -/
structure SimCols where
  simMean : ℚ
  simMedian : ℚ
  simStdSq : ℚ
  simP90 : ℚ
  simP95 : ℚ
  simP99 : ℚ
  simVaR95 : ℚ
  simVaR99 : ℚ
  simTVaR95 : ℚ
  simTVaR99 : ℚ
deriving DecidableEq

/-- The metric block `io.quantify_register` computes from one loss array:
percentile columns, plus TVaR via the inline tail mean with the
`len(tail) > 0` fallback to the VaR threshold. -/
def simColsOf (losses : List ℚ) : SimCols :=
  let var95 := np_percentile losses 95
  let tail95 := losses.filter (fun x => var95 ≤ x)
  let var99 := np_percentile losses 99
  let tail99 := losses.filter (fun x => var99 ≤ x)
  { simMean := np_mean losses
    simMedian := np_median losses
    simStdSq := np_var_pop losses
    simP90 := np_percentile losses 90
    simP95 := np_percentile losses 95
    simP99 := np_percentile losses 99
    simVaR95 := np_percentile losses 95
    simVaR99 := np_percentile losses 99
    simTVaR95 := if 0 < tail95.length then np_mean tail95 else var95
    simTVaR99 := if 0 < tail99.length then np_mean tail99 else var99 }

/-- The `for col in risk_columns` loop of `io.quantify_register`: each
simulated column is matched back to the register rows by RiskID; a match
writes the metric block on every matching row, a miss appends the
data-integrity warning emitted by `warnings.warn` and moves on.  The state
is (rows with their metric block so far, warnings so far). -/
def ioQuantLoop (rows : List (RiskRow × Option SimCols)) (warns : List String) :
    List (String × List ℚ) → List (RiskRow × Option SimCols) × List String
  | [] => (rows, warns)
  | (col, losses) :: rest =>
    let risk_id := pyReplace col "by_risk:" ""
    if rows.any (fun rp => rp.1.riskID = some risk_id) then
      ioQuantLoop
        (rows.map (fun rp =>
          if rp.1.riskID = some risk_id then (rp.1, some (simColsOf losses)) else rp))
        warns rest
    else
      ioQuantLoop rows
        (warns ++ ["Risk " ++ risk_id ++ " in simulation but not in register"]) rest

/-- `io.quantify_register(register_df, n_sims, seed)`: simulates the
portfolio, attaches the `Sim*` metric columns to each register row whose
RiskID appears in the simulation output (warning on the ones that do not),
and appends a PORTFOLIO_TOTAL row carrying the portfolio metrics.  The
result models the returned DataFrame as (per-row metric blocks, the
portfolio-total metric block) together with the warnings the call emitted. -/
def io_quantify_register (Ω : Oracle) (ents : ℕ → ℕ) (register_rows : List RiskRow)
    (n_sims : ℕ) (seed : Option ℕ) :
    Except String (List (RiskRow × Option SimCols) × SimCols × List String) :=
  match simulate_portfolio Ω ents register_rows n_sims seed with
  | .error e => .error e
  | .ok (portfolio_losses, results) =>
    let quantified_df := register_rows.map (fun r => (r, (none : Option SimCols)))
    let risk_columns := results.filter (fun e => pyStartsWith e.1 "by_risk:")
    let state := ioQuantLoop quantified_df [] risk_columns
    .ok (state.1, simColsOf portfolio_losses, state.2)

/-! ## src/risk_mc/risk_register.py -/

/-- One output row of `risk_register.quantify_register`: the echoed register
fields plus the quantification metrics.  `stdSq` carries the square of
`np.std` (see the header note). -/
structure QRow where
  riskID : String
  category : String
  description : String
  frequencyModel : String
  freqParam1 : Option ℚ
  freqParam2 : Option ℚ
  severityModel : String
  sevParam1 : Option ℚ
  sevParam2 : Option ℚ
  sevParam3 : Option ℚ
  controlEffectiveness : Option ℚ
  residualFactor : Option ℚ
  mean : ℚ
  median : ℚ
  stdSq : ℚ
  p90 : ℚ
  p95 : ℚ
  p99 : ℚ
  var_95 : ℚ
  var_99 : ℚ
  tvar_95 : ℚ
  tvar_99 : ℚ
deriving DecidableEq

/-- The `for col in risk_columns` loop of `risk_register.quantify_register`:
each simulated column is matched back to the register by RiskID; a column
with no matching register row is skipped by `continue` (no warning exists in
this function); a match produces one metrics row.  Guarded column reads
(`if "Description" in risk_row.columns`) consult the frame's column list;
`risk_row["Category"]` is unguarded, so a frame without that column raises
KeyError just as pandas does. -/
def quantRows (Ω : Oracle) (frame : RegisterFrame) :
    List (String × List ℚ) → Except String (List QRow)
  | [] => .ok []
  | (col, losses) :: rest =>
    let risk_id := pyReplace col "by_risk:" ""
    match frame.rows.filter (fun r => r.riskID = some risk_id) with
    | [] => quantRows Ω frame rest
    | risk_row :: _ =>
      if ¬ frame.cols.contains "Category" then
        .error "KeyError: Category"
      else
        match var losses (95 / 100), var losses (99 / 100),
            tvar losses (95 / 100), tvar losses (99 / 100) with
        | .ok var_95, .ok var_99, .ok tvar_95, .ok tvar_99 =>
          match quantRows Ω frame rest with
          | .error e => .error e
          | .ok rs =>
            .ok ({ riskID := risk_id
                   category := risk_row.category.getD ""
                   description := if frame.cols.contains "Description" then
                       risk_row.description.getD "" else ""
                   frequencyModel := risk_row.frequencyModel.getD ""
                   freqParam1 := risk_row.freqParam1
                   freqParam2 := if frame.cols.contains "FreqParam2" then
                       risk_row.freqParam2 else none
                   severityModel := risk_row.severityModel.getD ""
                   sevParam1 := risk_row.sevParam1
                   sevParam2 := risk_row.sevParam2
                   sevParam3 := if frame.cols.contains "SevParam3" then
                       risk_row.sevParam3 else none
                   controlEffectiveness := if frame.cols.contains "ControlEffectiveness" then
                       risk_row.controlEffectiveness else some 0
                   residualFactor := if frame.cols.contains "ResidualFactor" then
                       risk_row.residualFactor else some 1
                   mean := np_mean losses
                   median := np_median losses
                   stdSq := np_var_pop losses
                   p90 := np_percentile losses 90
                   p95 := np_percentile losses 95
                   p99 := np_percentile losses 99
                   var_95 := var_95
                   var_99 := var_99
                   tvar_95 := tvar_95
                   tvar_99 := tvar_99 } :: rs)
        | .error e, _, _, _ => .error e
        | _, .error e, _, _ => .error e
        | _, _, .error e, _ => .error e
        | _, _, _, .error e => .error e

/-- The PORTFOLIO_TOTAL row `risk_register.quantify_register` appends. -/
def portfolioTotalRow (portfolio_losses : List ℚ)
    (var_95 var_99 tvar_95 tvar_99 : ℚ) : QRow :=
  { riskID := "PORTFOLIO_TOTAL"
    category := "Portfolio"
    description := "Total portfolio loss"
    frequencyModel := ""
    freqParam1 := none
    freqParam2 := none
    severityModel := ""
    sevParam1 := none
    sevParam2 := none
    sevParam3 := none
    controlEffectiveness := none
    residualFactor := none
    mean := np_mean portfolio_losses
    median := np_median portfolio_losses
    stdSq := np_var_pop portfolio_losses
    p90 := np_percentile portfolio_losses 90
    p95 := np_percentile portfolio_losses 95
    p99 := np_percentile portfolio_losses 99
    var_95 := var_95
    var_99 := var_99
    tvar_95 := tvar_95
    tvar_99 := tvar_99 }

/-- `risk_register.quantify_register(register_df, n_sims, seed)`: validates
the register format, simulates the portfolio, builds one metrics row per
simulated column that matches a register RiskID (silently skipping the ones
that do not — this function, unlike `io.quantify_register`, has no warning
call), and appends the PORTFOLIO_TOTAL row. -/
def rr_quantify_register (Ω : Oracle) (ents : ℕ → ℕ) (frame : RegisterFrame)
    (n_sims : ℕ) (seed : Option ℕ) : Except String (List QRow) :=
  let v := validate_register_format frame
  if ¬ v.1 then
    .error ("Invalid risk register: " ++ String.intercalate "; " v.2)
  else
    match simulate_portfolio Ω ents frame.rows n_sims seed with
    | .error e => .error e
    | .ok (portfolio_losses, results) =>
      let risk_columns := results.filter (fun e => pyStartsWith e.1 "by_risk:")
      match quantRows Ω frame risk_columns with
      | .error e => .error e
      | .ok quantified_rows =>
        match var portfolio_losses (95 / 100), var portfolio_losses (99 / 100),
            tvar portfolio_losses (95 / 100), tvar portfolio_losses (99 / 100) with
        | .ok v95, .ok v99, .ok t95, .ok t99 =>
          .ok (quantified_rows ++ [portfolioTotalRow portfolio_losses v95 v99 t95 t99])
        | .error e, _, _, _ => .error e
        | _, .error e, _, _ => .error e
        | _, _, .error e, _ => .error e
        | _, _, _, .error e => .error e

/-! ## Order-statistics lemmas about the percentile model -/

lemma np_sort_sorted (xs : List ℚ) : List.Sorted (fun a b => a ≤ b) (np_sort xs) :=
  List.sorted_insertionSort _ xs

lemma np_sort_perm (xs : List ℚ) : (np_sort xs).Perm xs :=
  List.perm_insertionSort _ xs

lemma np_sort_length (xs : List ℚ) : (np_sort xs).length = xs.length :=
  (np_sort_perm xs).length_eq

lemma np_sort_mem {xs : List ℚ} {a : ℚ} : a ∈ np_sort xs ↔ a ∈ xs :=
  (np_sort_perm xs).mem_iff

lemma sorted_getD_mono {l : List ℚ} (h : List.Sorted (fun a b => a ≤ b) l)
    {i j : ℕ} (hij : i ≤ j) (hj : j < l.length) : l.getD i 0 ≤ l.getD j 0 := by
  rcases Nat.lt_or_ge i j with hlt | hge
  · have hi : i < l.length := lt_trans hlt hj
    rw [List.getD_eq_get l 0 hi, List.getD_eq_get l 0 hj]
    exact List.pairwise_iff_get.mp h ⟨i, hi⟩ ⟨j, hj⟩ hlt
  · have : i = j := le_antisymm hij hge
    subst this
    exact le_refl _

/-- Bounds on the virtual index and its floor used by `np_percentile`. -/
lemma percentile_floor_bounds (n : ℕ) (hn : 1 ≤ n) (q : ℚ) (h0 : 0 ≤ q) (h1 : q ≤ 100) :
    0 ≤ q / 100 * ((n : ℚ) - 1) ∧
    q / 100 * ((n : ℚ) - 1) ≤ (n : ℚ) - 1 ∧
    ((Int.floor (q / 100 * ((n : ℚ) - 1))).toNat : ℚ) ≤ q / 100 * ((n : ℚ) - 1) ∧
    q / 100 * ((n : ℚ) - 1) < ((Int.floor (q / 100 * ((n : ℚ) - 1))).toNat : ℚ) + 1 ∧
    (Int.floor (q / 100 * ((n : ℚ) - 1))).toNat ≤ n - 1 := by
  set pos := q / 100 * ((n : ℚ) - 1) with hpos
  have hn1 : (0 : ℚ) ≤ (n : ℚ) - 1 := by
    have : (1 : ℚ) ≤ (n : ℚ) := by exact_mod_cast hn
    linarith
  have hq01 : 0 ≤ q / 100 := by positivity
  have hq11 : q / 100 ≤ 1 := by linarith
  have hpos0 : 0 ≤ pos := mul_nonneg hq01 hn1
  have hposn : pos ≤ (n : ℚ) - 1 := by
    calc pos ≤ 1 * ((n : ℚ) - 1) := mul_le_mul_of_nonneg_right hq11 hn1
    _ = (n : ℚ) - 1 := one_mul _
  have hfl0 : 0 ≤ Int.floor pos := Int.floor_nonneg.mpr hpos0
  have hcast : ((Int.floor pos).toNat : ℚ) = ((Int.floor pos : ℤ) : ℚ) := by
    exact_mod_cast congrArg (fun z => ((z : ℤ) : ℚ)) (Int.toNat_of_nonneg hfl0)
  have hfl_le : ((Int.floor pos).toNat : ℚ) ≤ pos := by
    rw [hcast]
    exact Int.floor_le pos
  have hlt : pos < ((Int.floor pos).toNat : ℚ) + 1 := by
    rw [hcast]
    exact_mod_cast Int.lt_floor_add_one pos
  refine ⟨hpos0, hposn, hfl_le, hlt, ?_⟩
  have h1n : ((Int.floor pos).toNat : ℚ) ≤ (n : ℚ) - 1 := le_trans hfl_le hposn
  have : ((Int.floor pos).toNat : ℚ) ≤ ((n - 1 : ℕ) : ℚ) := by
    rwa [Nat.cast_sub hn, Nat.cast_one]
  exact_mod_cast this

/-- The linear-interpolation percentile never exceeds the largest order
statistic. -/
lemma np_percentile_le_max (xs : List ℚ) (hne : xs ≠ []) (q : ℚ)
    (h0 : 0 ≤ q) (h1 : q ≤ 100) :
    np_percentile xs q ≤ (np_sort xs).getD ((np_sort xs).length - 1) 0 := by
  have hs := np_sort_sorted xs
  set b := np_sort xs with hb
  set n := b.length with hn
  have hn1 : 1 ≤ n := by
    rw [hn, hb, np_sort_length]
    exact List.length_pos.mpr hne
  obtain ⟨hpos0, hposn, hfl_le, hlt, hi_le⟩ := percentile_floor_bounds n hn1 q h0 h1
  set pos := q / 100 * ((n : ℚ) - 1) with hpos
  set i := (Int.floor pos).toNat with hi
  show (if i + 1 < n then
      b.getD i 0 + (pos - (i : ℚ)) * (b.getD (i + 1) 0 - b.getD i 0)
    else b.getD (n - 1) 0) ≤ b.getD (n - 1) 0
  by_cases hbr : i + 1 < n
  · rw [if_pos hbr]
    have hΔ : b.getD i 0 ≤ b.getD (i + 1) 0 :=
      sorted_getD_mono hs (Nat.le_succ i) hbr
    have hfrac1 : pos - (i : ℚ) ≤ 1 := by linarith
    have hstep : b.getD i 0 + (pos - (i : ℚ)) * (b.getD (i + 1) 0 - b.getD i 0)
        ≤ b.getD (i + 1) 0 := by
      nlinarith [hΔ, hfrac1]
    have hlast : b.getD (i + 1) 0 ≤ b.getD (n - 1) 0 := by
      apply sorted_getD_mono hs (by omega) (by omega)
    linarith
  · rw [if_neg hbr]

/-- The linear-interpolation percentile is monotone in the percentage. -/
lemma np_percentile_mono (xs : List ℚ) (hne : xs ≠ []) {q1 q2 : ℚ}
    (h0 : 0 ≤ q1) (h12 : q1 ≤ q2) (h2 : q2 ≤ 100) :
    np_percentile xs q1 ≤ np_percentile xs q2 := by
  have hs := np_sort_sorted xs
  set b := np_sort xs with hb
  set n := b.length with hn
  have hn1 : 1 ≤ n := by
    rw [hn, hb, np_sort_length]
    exact List.length_pos.mpr hne
  obtain ⟨hp10, hp1n, hf1_le, hl1, hi1_le⟩ :=
    percentile_floor_bounds n hn1 q1 h0 (le_trans h12 h2)
  obtain ⟨hp20, hp2n, hf2_le, hl2, hi2_le⟩ :=
    percentile_floor_bounds n hn1 q2 (le_trans h0 h12) h2
  set pos1 := q1 / 100 * ((n : ℚ) - 1) with hpos1
  set pos2 := q2 / 100 * ((n : ℚ) - 1) with hpos2
  set i1 := (Int.floor pos1).toNat with hi1
  set i2 := (Int.floor pos2).toNat with hi2
  have hposle : pos1 ≤ pos2 := by
    have hn1q : (0 : ℚ) ≤ (n : ℚ) - 1 := by
      have : (1 : ℚ) ≤ (n : ℚ) := by exact_mod_cast hn1
      linarith
    have : q1 / 100 ≤ q2 / 100 := by linarith
    exact mul_le_mul_of_nonneg_right this hn1q
  have hile : i1 ≤ i2 := by
    have hz : Int.floor pos1 ≤ Int.floor pos2 := Int.floor_le_floor hposle
    exact Int.toNat_le_toNat hz
  show (if i1 + 1 < n then
      b.getD i1 0 + (pos1 - (i1 : ℚ)) * (b.getD (i1 + 1) 0 - b.getD i1 0)
    else b.getD (n - 1) 0) ≤
    (if i2 + 1 < n then
      b.getD i2 0 + (pos2 - (i2 : ℚ)) * (b.getD (i2 + 1) 0 - b.getD i2 0)
    else b.getD (n - 1) 0)
  rcases Nat.lt_or_ge i1 i2 with hlt12 | hge12
  · -- distinct floor cells: chain through the order statistics between them
    have hbr1 : i1 + 1 < n := by omega
    rw [if_pos hbr1]
    have hΔ1 : b.getD i1 0 ≤ b.getD (i1 + 1) 0 := sorted_getD_mono hs (Nat.le_succ i1) hbr1
    have hfrac1 : pos1 - (i1 : ℚ) ≤ 1 := by linarith
    have hstep1 : b.getD i1 0 + (pos1 - (i1 : ℚ)) * (b.getD (i1 + 1) 0 - b.getD i1 0)
        ≤ b.getD (i1 + 1) 0 := by nlinarith [hΔ1, hfrac1]
    by_cases hbr2 : i2 + 1 < n
    · rw [if_pos hbr2]
      have hmid : b.getD (i1 + 1) 0 ≤ b.getD i2 0 :=
        sorted_getD_mono hs (by omega) (by omega)
      have hΔ2 : b.getD i2 0 ≤ b.getD (i2 + 1) 0 := sorted_getD_mono hs (Nat.le_succ i2) hbr2
      have hfrac2 : 0 ≤ pos2 - (i2 : ℚ) := by linarith
      nlinarith [hmid, hΔ2, hfrac2, hstep1]
    · rw [if_neg hbr2]
      have hmid : b.getD (i1 + 1) 0 ≤ b.getD (n - 1) 0 :=
        sorted_getD_mono hs (by omega) (by omega)
      linarith
  · have heq : i1 = i2 := le_antisymm hile hge12
    rw [heq] at hf1_le hl1 ⊢
    by_cases hbr : i2 + 1 < n
    · rw [if_pos hbr, if_pos hbr]
      have hΔ : b.getD i2 0 ≤ b.getD (i2 + 1) 0 := sorted_getD_mono hs (Nat.le_succ i2) hbr
      nlinarith [hΔ, hposle]
    · rw [if_neg hbr, if_neg hbr]

/-- The largest order statistic is a member of the data. -/
lemma max_orderstat_mem (xs : List ℚ) (hne : xs ≠ []) :
    (np_sort xs).getD ((np_sort xs).length - 1) 0 ∈ xs := by
  have hlen : 0 < (np_sort xs).length := by
    rw [np_sort_length]
    exact List.length_pos.mpr hne
  have hlt : (np_sort xs).length - 1 < (np_sort xs).length := by omega
  rw [List.getD_eq_get _ 0 hlt]
  exact np_sort_mem.mp (List.get_mem _ _ hlt)

/-- A lower bound shared by every element of a non-empty list bounds its
mean from below. -/
lemma le_np_mean_of_forall_le {l : List ℚ} (hne : l ≠ []) {v : ℚ}
    (h : ∀ x ∈ l, v ≤ x) : v ≤ np_mean l := by
  have hlen : 0 < (l.length : ℚ) := by
    exact_mod_cast List.length_pos.mpr hne
  have hsum : v * (l.length : ℚ) ≤ l.sum := by
    clear hne hlen
    induction l with
    | nil => simp
    | cons a t ih =>
      have ha := h a (by simp)
      have ht := ih (fun x hx => h x (List.mem_cons_of_mem a hx))
      simp only [List.sum_cons, List.length_cons]
      push_cast
      linarith
  rw [np_mean, le_div_iff₀ hlen]
  exact hsum

/-- On a non-empty array and a confidence in (0,1), `var` returns the
percentile, the largest order statistic lands in the tail of `tvar`, and
`tvar` returns the tail mean (the degenerate fallback branch is skipped). -/
lemma var_ok_and_tail (losses : List ℚ) (hne : losses ≠ []) (c : ℚ)
    (hc : 0 < c) (hc1 : c < 1) :
    var losses c = .ok (np_percentile losses (c * 100)) ∧
    (np_sort losses).getD ((np_sort losses).length - 1) 0 ∈
      losses.filter (fun x => np_percentile losses (c * 100) ≤ x) ∧
    tvar losses c = .ok (np_mean (losses.filter (fun x => np_percentile losses (c * 100) ≤ x))) := by
  have hcond : ¬¬(0 < c ∧ c < 1) := not_not_intro ⟨hc, hc1⟩
  have hvar : var losses c = .ok (np_percentile losses (c * 100)) := by
    rw [var, if_neg hcond]
  have hq0 : 0 ≤ c * 100 := by positivity
  have hq1 : c * 100 ≤ 100 := by nlinarith
  have hle := np_percentile_le_max losses hne (c * 100) hq0 hq1
  have hmem := max_orderstat_mem losses hne
  have hfmem : (np_sort losses).getD ((np_sort losses).length - 1) 0 ∈
      losses.filter (fun x => np_percentile losses (c * 100) ≤ x) :=
    List.mem_filter.mpr ⟨hmem, by simpa using hle⟩
  refine ⟨hvar, hfmem, ?_⟩
  have htne : losses.filter (fun x => np_percentile losses (c * 100) ≤ x) ≠ [] :=
    List.ne_nil_of_mem hfmem
  rw [tvar, if_neg hcond, hvar]
  simp only [List.length_eq_zero]
  rw [if_neg htne]

/-- C3: on every non-empty loss array, `metrics.var` is non-decreasing in the
confidence level over (0,1) (the linear-interpolation percentile is monotone),
and `metrics.tvar` — the mean of the losses at or above the VaR threshold,
falling back to the threshold when no loss qualifies — dominates
`metrics.var` at every confidence in (0,1). -/
theorem C3_var_monotone_and_tvar_ge_var (losses : List ℚ) (hne : losses ≠ [])
    (c1 c2 c : ℚ) (hc1 : 0 < c1) (h12 : c1 < c2) (hc2 : c2 < 1)
    (hc : 0 < c) (hcu : c < 1) :
    ∃ v1 v2 v t, var losses c1 = .ok v1 ∧ var losses c2 = .ok v2 ∧ v1 ≤ v2 ∧
      var losses c = .ok v ∧ tvar losses c = .ok t ∧ v ≤ t := by
  obtain ⟨hvar1, _, _⟩ := var_ok_and_tail losses hne c1 hc1 (lt_trans h12 hc2)
  obtain ⟨hvar2, _, _⟩ := var_ok_and_tail losses hne c2 (lt_trans hc1 h12) hc2
  obtain ⟨hvar, hfmem, htvar⟩ := var_ok_and_tail losses hne c hc hcu
  refine ⟨_, _, _, _, hvar1, hvar2, ?_, hvar, htvar, ?_⟩
  · exact np_percentile_mono losses hne (by positivity)
      (by nlinarith) (by nlinarith)
  · apply le_np_mean_of_forall_le (List.ne_nil_of_mem hfmem)
    intro x hx
    have := List.mem_filter.mp hx
    simpa using this.2

/-- C3 witness: the theorem applied at losses [1, 2, 3], c1 = 1/2,
c2 = 3/4, c = 1/2. -/
theorem C3_witness :
    ∃ v1 v2 v t, var [1, 2, 3] (1/2) = .ok v1 ∧ var [1, 2, 3] (3/4) = .ok v2 ∧
      v1 ≤ v2 ∧ var [1, 2, 3] (1/2) = .ok v ∧ tvar [1, 2, 3] (1/2) = .ok t ∧ v ≤ t :=
  C3_var_monotone_and_tvar_ge_var [1, 2, 3] (by decide) (1/2) (3/4) (1/2)
    (by norm_num) (by norm_num) (by norm_num) (by norm_num) (by norm_num)

/-- C10: on every non-empty loss array and confidence in (0,1), the tail set
`{x ∈ losses : x ≥ var(losses, c)}` is non-empty — the linear-interpolation
percentile never exceeds the array maximum — so the `len(tail_losses) == 0`
fallback of `metrics.tvar` is unreachable and `tvar` returns the mean of a
non-empty tail. -/
theorem C10_tail_nonempty_fallback_unreachable (losses : List ℚ) (hne : losses ≠ [])
    (c : ℚ) (hc : 0 < c) (hcu : c < 1) :
    ∃ v, var losses c = .ok v ∧
      losses.filter (fun x => v ≤ x) ≠ [] ∧
      tvar losses c = .ok (np_mean (losses.filter (fun x => v ≤ x))) := by
  obtain ⟨hvar, hfmem, htvar⟩ := var_ok_and_tail losses hne c hc hcu
  exact ⟨_, hvar, List.ne_nil_of_mem hfmem, htvar⟩

/-- C10 witness: the theorem applied at losses [5, 7] and c = 9/10. -/
theorem C10_witness :
    ∃ v, var [5, 7] (9/10) = .ok v ∧
      List.filter (fun x => v ≤ x) [5, 7] ≠ [] ∧
      tvar [5, 7] (9/10) = .ok (np_mean (List.filter (fun x => v ≤ x) [5, 7])) :=
  C10_tail_nonempty_fallback_unreachable [5, 7] (by decide) (9/10)
    (by norm_num) (by norm_num)

/-- Sorting an already sorted array changes nothing, so the percentile of
`np.sort losses` equals the percentile of `losses` (the source passes
`sorted_losses` to `np.percentile`, which sorts again internally). -/
lemma np_percentile_np_sort (xs : List ℚ) (q : ℚ) :
    np_percentile (np_sort xs) q = np_percentile xs q := by
  have hidem : np_sort (np_sort xs) = np_sort xs :=
    List.Sorted.insertionSort_eq (np_sort_sorted xs)
  rw [np_percentile, np_percentile, hidem]

/-- C8 counterexample: at the boundary probability p = 0 (allowed by the
claim's range [0,1]) on losses [1, 2], `lec_points` returns the threshold 2,
but `var(losses, 1 - 0)` raises its confidence validation error instead of
returning a value, so the claimed equality has no right-hand side there. -/
theorem C8_counterexample :
    lec_points [1, 2] (some [0]) 100 = .ok [(0, 2)] ∧
      var [1, 2] (1 - 0) = .error "Confidence must be in (0, 1)" := by
  constructor
  · norm_num [lec_points, lecProbRows, sort_prob_desc, np_percentile, np_sort,
      List.insertionSort, List.orderedInsert]
  · norm_num [var]

/-- C8 amended: for every non-empty loss array and every exceedance
probability p strictly inside (0,1), the single row returned by
`lec_points(losses, probs=[p])` carries exactly the value of
`var(losses, 1-p)` — both are the `(1-p)*100` linear-interpolation
percentile.  (At the boundary values p = 0 and p = 1 the curve still returns
the extreme percentile while `var` raises.) -/
theorem C8_lec_var_consistency (losses : List ℚ) (hne : losses ≠ [])
    (p : ℚ) (hp0 : 0 < p) (hp1 : p < 1) (n_points : ℕ) :
    ∃ v, var losses (1 - p) = .ok v ∧
      lec_points losses (some [p]) n_points = .ok [(p, v)] := by
  have hcond : ¬¬(0 < 1 - p ∧ 1 - p < 1) := not_not_intro ⟨by linarith, by linarith⟩
  have hvar : var losses (1 - p) = .ok (np_percentile losses ((1 - p) * 100)) := by
    rw [var, if_neg hcond]
  refine ⟨_, hvar, ?_⟩
  have hlen : (np_sort losses).length ≠ 0 := by
    rw [np_sort_length]
    exact Nat.pos_iff_ne_zero.mp (List.length_pos.mpr hne)
  have hrows : lecProbRows (np_sort losses) [p] =
      .ok [(p, np_percentile losses ((1 - p) * 100))] := by
    rw [lecProbRows, if_neg (not_not_intro ⟨le_of_lt hp0, le_of_lt hp1⟩), if_neg hlen,
      lecProbRows, np_percentile_np_sort]
  rw [lec_points]
  simp only [hrows]
  rfl

/-- C8 witness: the amended theorem applied at losses [1, 2] and the spec's
probability p = 0.05. -/
theorem C8_witness :
    ∃ v, var [1, 2] (1 - 1/20) = .ok v ∧
      lec_points [1, 2] (some [1/20]) 100 = .ok [(1/20, v)] :=
  C8_lec_var_consistency [1, 2] (by decide) (1/20) (by norm_num) (by norm_num) 100

/-- The fallback-read of the last element of a non-empty list is one of its
elements. -/
lemma getLastD_cons_mem (m : ℚ) (t : List ℚ) : (m :: t).getLastD 0 ∈ m :: t := by
  rw [List.getLastD_eq_getLast?]
  cases h : (m :: t).getLast? with
  | none => simp [List.getLast?_eq_none_iff] at h
  | some a =>
    simp only [Option.getD_some]
    exact List.mem_of_mem_getLast? (by simp [h])

instance : IsTotal (ℚ × ℚ) (fun a b => b.1 ≤ a.1) :=
  ⟨fun a b => le_total b.1 a.1⟩

instance : IsTrans (ℚ × ℚ) (fun a b => b.1 ≤ a.1) :=
  ⟨fun _ _ _ hab hbc => le_trans hbc hab⟩

lemma sort_prob_desc_sorted (rows : List (ℚ × ℚ)) :
    List.Sorted (fun a b => b.1 ≤ a.1) (sort_prob_desc rows) :=
  List.sorted_insertionSort _ rows

/-- C7: a non-empty all-equal loss array makes `lec_points` (without explicit
probabilities) return exactly the two-point curve — probability 1 and
probability 0, both at the constant value — and in every mode the rows that
`lec_points` returns are sorted by probability descending. -/
theorem C7_degenerate_curve_and_sorted :
    (∀ (losses : List ℚ) (v : ℚ), losses ≠ [] → (∀ x ∈ losses, x = v) →
      ∀ n_points, lec_points losses none n_points = .ok [(1, v), (0, v)]) ∧
    (∀ (losses : List ℚ) (probs : Option (List ℚ)) (n_points : ℕ)
      (rows : List (ℚ × ℚ)), lec_points losses probs n_points = .ok rows →
      List.Sorted (fun a b => b.1 ≤ a.1) rows) := by
  constructor
  · intro losses v hne hall n_points
    have hsne : np_sort losses ≠ [] := by
      intro hcontra
      apply hne
      rw [← List.length_eq_zero, ← np_sort_length losses, hcontra]
      rfl
    obtain ⟨m, t, hcons⟩ := List.exists_cons_of_ne_nil hsne
    have hm : m = v := hall m (np_sort_mem.mp (hcons ▸ List.mem_cons_self m t))
    have hlastmem : (m :: t).getLastD 0 ∈ np_sort losses := by
      rw [hcons]
      exact getLastD_cons_mem m t
    have hlast : (m :: t).getLastD 0 = v := hall _ (np_sort_mem.mp hlastmem)
    rw [lec_points]
    simp only [hcons]
    rw [if_pos (by rw [hlast, hm]), hm]
  · intro losses probs n_points rows h
    rw [lec_points.eq_def] at h
    cases probs with
    | some ps =>
      simp only at h
      cases hrows : lecProbRows (np_sort losses) ps with
      | error e => rw [hrows] at h; exact absurd h (by simp)
      | ok results =>
        rw [hrows] at h
        simp only [Except.ok.injEq] at h
        rw [← h]
        exact sort_prob_desc_sorted results
    | none =>
      simp only at h
      cases hcons : np_sort losses with
      | nil => rw [hcons] at h; exact absurd h (by simp)
      | cons m t =>
        rw [hcons] at h
        dsimp only at h
        by_cases hdeg : m = (m :: t).getLastD 0
        · rw [if_pos hdeg] at h
          simp only [Except.ok.injEq] at h
          rw [← h]
          simp [List.Sorted]
        · rw [if_neg hdeg] at h
          simp only [Except.ok.injEq] at h
          rw [← h]
          exact sort_prob_desc_sorted _

/-- C7 witness: the theorem applied to the constant array [5, 5, 5] (both the
two-point curve and its sortedness). -/
theorem C7_witness :
    lec_points [5, 5, 5] none 100 = .ok [(1, 5), (0, 5)] ∧
      List.Sorted (fun a b => b.1 ≤ a.1) [((1 : ℚ), (5 : ℚ)), (0, 5)] :=
  ⟨C7_degenerate_curve_and_sorted.1 [5, 5, 5] 5 (by decide) (by decide) 100,
   C7_degenerate_curve_and_sorted.2 [5, 5, 5] none 100 [(1, 5), (0, 5)]
     (C7_degenerate_curve_and_sorted.1 [5, 5, 5] 5 (by decide) (by decide) 100)⟩

/-- Selecting by "tail indicator equals 1" is the same as selecting by
"portfolio loss at or above the VaR threshold". -/
lemma zip_indicator_select (pv : ℚ) : ∀ (xs ys : List ℚ),
    (xs.zip (ys.map (fun x => if pv ≤ x then (1 : ℚ) else 0))).filterMap
      (fun p => if p.2 = 1 then some p.1 else none)
    = (xs.zip ys).filterMap (fun p => if pv ≤ p.2 then some p.1 else none) := by
  intro xs
  induction xs with
  | nil => intro ys; rfl
  | cons a xt ih =>
    intro ys
    cases ys with
    | nil => rfl
    | cons b yt =>
      by_cases hb : pv ≤ b
      · simp only [List.map_cons, if_pos hb, List.zip_cons_cons, List.filterMap_cons]
        norm_num
        exact ih yt
      · simp only [List.map_cons, if_neg hb, List.zip_cons_cons, List.filterMap_cons]
        norm_num
        exact ih yt

/-- C4 counterexample: portfolio losses [10, 10] put every trial in the tail
(VaR at 95% is 10 and the indicator is constant), and the risk [0, 10] has
positive variance with tail-restricted mean 5; the claim therefore demands
dVaR = 5, but the source's `np.std(tail_indicator) > 0` guard fails on the
constant indicator and assigns 0. -/
theorem C4_counterexample :
    var [10, 10] (95/100) = .ok 10 ∧
      np_mean [(0 : ℚ), 10] = 5 ∧
      0 < np_var_pop [(0 : ℚ), 10] ∧
      marginal_contribution_to_var [("r1", [0, 10])] [10, 10] (95/100) = .ok [("r1", 0)] := by
  refine ⟨?_, ?_, ?_, ?_⟩
  · norm_num [var, np_percentile, np_sort, List.insertionSort, List.orderedInsert]
  · norm_num [np_mean]
  · norm_num [np_var_pop, np_mean]
  · norm_num [marginal_contribution_to_var, var, np_percentile, np_sort, np_var_pop,
      np_mean, List.insertionSort, List.orderedInsert, List.filterMap_cons]
    decide

/-- C4 amended: for a confidence q in (0,1), `marginal_contribution_to_var`
returns, for every risk other than the "portfolio" entry: 0 when the risk's
losses have zero variance, 0 when the portfolio tail indicator is constant
(in particular when every trial is in the tail — the case the original claim
omits), and the mean of the risk's losses restricted to the trials with
portfolio loss at or above the portfolio VaR when both variances are
positive. -/
theorem C4_marginal_contribution_characterised (by_risk : List (String × List ℚ))
    (portfolio : List ℚ) (q : ℚ) (hq0 : 0 < q) (hq1 : q < 1) :
    ∃ pv out, var portfolio q = .ok pv ∧
      marginal_contribution_to_var by_risk portfolio q = .ok out ∧
      ∀ rl ∈ by_risk, rl.1 ≠ "portfolio" →
        (np_var_pop rl.2 = 0 → (rl.1, (0 : ℚ)) ∈ out) ∧
        (np_var_pop (portfolio.map (fun x => if pv ≤ x then (1 : ℚ) else 0)) = 0 →
          (rl.1, (0 : ℚ)) ∈ out) ∧
        (0 < np_var_pop rl.2 →
          0 < np_var_pop (portfolio.map (fun x => if pv ≤ x then (1 : ℚ) else 0)) →
          rl.2.length = portfolio.length →
          (rl.1, np_mean ((rl.2.zip portfolio).filterMap
            (fun p => if pv ≤ p.2 then some p.1 else none))) ∈ out) := by
  have hcond : ¬¬(0 < q ∧ q < 1) := not_not_intro ⟨hq0, hq1⟩
  have hvar : var portfolio q = .ok (np_percentile portfolio (q * 100)) := by
    rw [var, if_neg hcond]
  set pv := np_percentile portfolio (q * 100) with hpv
  have hmc : marginal_contribution_to_var by_risk portfolio q =
      .ok (by_risk.filterMap (fun rl =>
        if rl.1 = "portfolio" then none
        else if 0 < np_var_pop (portfolio.map (fun x => if pv ≤ x then (1 : ℚ) else 0)) ∧
            0 < np_var_pop rl.2 then
          some (rl.1,
            if ((rl.2.zip (portfolio.map (fun x => if pv ≤ x then (1 : ℚ) else 0))).filterMap
                (fun p => if p.2 = 1 then some p.1 else none)).length = 0 then 0
            else np_mean ((rl.2.zip (portfolio.map (fun x => if pv ≤ x then (1 : ℚ) else 0))).filterMap
                (fun p => if p.2 = 1 then some p.1 else none)))
        else some (rl.1, 0))) := by
    rw [marginal_contribution_to_var, hvar]
  refine ⟨pv, _, hvar, hmc, ?_⟩
  intro rl hrl hnp
  refine ⟨?_, ?_, ?_⟩
  · intro hzero
    apply List.mem_filterMap.mpr
    refine ⟨rl, hrl, ?_⟩
    rw [if_neg hnp, if_neg]
    intro hcontra
    rw [hzero] at hcontra
    exact lt_irrefl 0 hcontra.2
  · intro hzero
    apply List.mem_filterMap.mpr
    refine ⟨rl, hrl, ?_⟩
    rw [if_neg hnp, if_neg]
    intro hcontra
    rw [hzero] at hcontra
    exact lt_irrefl 0 hcontra.1
  · intro hpos1 hpos2 _
    apply List.mem_filterMap.mpr
    refine ⟨rl, hrl, ?_⟩
    rw [if_neg hnp, if_pos ⟨hpos2, hpos1⟩]
    have hsel := zip_indicator_select pv rl.2 portfolio
    simp only [hsel]
    by_cases hlen0 : ((rl.2.zip portfolio).filterMap
        (fun p => if pv ≤ p.2 then some p.1 else none)).length = 0
    · rw [if_pos hlen0]
      have hnil : (rl.2.zip portfolio).filterMap
          (fun p => if pv ≤ p.2 then some p.1 else none) = [] :=
        List.length_eq_zero.mp hlen0
      rw [hnil, np_mean]
      norm_num
    · rw [if_neg hlen0]

/-- C4 witness: the amended theorem applied to one risk [0, 10] against the
portfolio [0, 10] at q = 95% (a non-constant tail indicator, so the
tail-restricted-mean branch applies). -/
theorem C4_witness :
    ∃ pv out, var [0, 10] (95/100) = .ok pv ∧
      marginal_contribution_to_var [("r1", [0, 10])] [0, 10] (95/100) = .ok out ∧
      ∀ rl ∈ [("r1", [(0 : ℚ), 10])], rl.1 ≠ "portfolio" →
        (np_var_pop rl.2 = 0 → (rl.1, (0 : ℚ)) ∈ out) ∧
        (np_var_pop (List.map (fun x => if pv ≤ x then (1 : ℚ) else 0) [0, 10]) = 0 →
          (rl.1, (0 : ℚ)) ∈ out) ∧
        (0 < np_var_pop rl.2 →
          0 < np_var_pop (List.map (fun x => if pv ≤ x then (1 : ℚ) else 0) [0, 10]) →
          rl.2.length = ([(0 : ℚ), 10]).length →
          (rl.1, np_mean ((rl.2.zip [(0 : ℚ), 10]).filterMap
            (fun p => if pv ≤ p.2 then some p.1 else none))) ∈ out) :=
  C4_marginal_contribution_characterised [("r1", [0, 10])] [0, 10] (95/100)
    (by norm_num) (by norm_num)

/-! ## Shape lemmas for the simulation pipeline -/

lemma sample_frequency_poisson_length {Ω : Oracle} {lam : ℚ} {n : ℕ} {rng : Rng}
    {cs : List ℕ} {rng2 : Rng}
    (h : sample_frequency_poisson Ω lam n rng = .ok (cs, rng2)) : cs.length = n := by
  rw [sample_frequency_poisson] at h
  split_ifs at h <;>
    first
      | exact Except.noConfusion h
      | (simp only [Except.ok.injEq, Prod.mk.injEq] at h
         rw [← h.1]
         simp)

lemma sample_frequency_negbin_length {Ω : Oracle} {r p : ℚ} {n : ℕ} {rng : Rng}
    {cs : List ℕ} {rng2 : Rng}
    (h : sample_frequency_negbin Ω r p n rng = .ok (cs, rng2)) : cs.length = n := by
  rw [sample_frequency_negbin] at h
  split_ifs at h <;>
    first
      | exact Except.noConfusion h
      | (simp only [Except.ok.injEq, Prod.mk.injEq] at h
         rw [← h.1]
         simp)

lemma sample_frequency_length {Ω : Oracle} {model : String} {p1 : ℚ} {p2 : Option ℚ}
    {n : ℕ} {rng : Rng} {cs : List ℕ} {rng2 : Rng}
    (h : sample_frequency Ω model p1 p2 n rng = .ok (cs, rng2)) : cs.length = n := by
  rw [sample_frequency.eq_def] at h
  dsimp only at h
  split_ifs at h <;>
    first
      | exact Except.noConfusion h
      | exact sample_frequency_poisson_length h
      | (cases p2 with
          | none => exact Except.noConfusion h
          | some p => exact sample_frequency_negbin_length h)

lemma severityLoop_length {Ω : Oracle} {sm : String} {p1 p2 : ℚ} {p3 : Option ℚ}
    {rf ce : ℚ} : ∀ {ks : List ℕ} {rng : Rng} {ls : List ℚ} {rng2 : Rng},
    severityLoop Ω sm p1 p2 p3 rf ce ks rng = .ok (ls, rng2) → ls.length = ks.length := by
  intro ks
  induction ks with
  | nil =>
    intro rng ls rng2 h
    rw [severityLoop] at h
    simp only [Except.ok.injEq, Prod.mk.injEq] at h
    rw [← h.1]
    rfl
  | cons k kt ih =>
    intro rng ls rng2 h
    rw [severityLoop] at h
    by_cases hk : 0 < k
    · rw [if_pos hk] at h
      cases hs : sample_severity Ω sm p1 p2 p3 k rng with
      | error e => rw [hs] at h; exact absurd h (by simp)
      | ok pr =>
        obtain ⟨sevs, rng1⟩ := pr
        rw [hs] at h
        dsimp only at h
        cases hrec : severityLoop Ω sm p1 p2 p3 rf ce kt rng1 with
        | error e => rw [hrec] at h; exact absurd h (by simp)
        | ok pr2 =>
          obtain ⟨rest, rng3⟩ := pr2
          rw [hrec] at h
          simp only [Except.ok.injEq, Prod.mk.injEq] at h
          rw [← h.1]
          simp [ih hrec]
    · rw [if_neg hk] at h
      cases hrec : severityLoop Ω sm p1 p2 p3 rf ce kt rng with
      | error e => rw [hrec] at h; exact absurd h (by simp)
      | ok pr2 =>
        obtain ⟨rest, rng3⟩ := pr2
        rw [hrec] at h
        simp only [Except.ok.injEq, Prod.mk.injEq] at h
        rw [← h.1]
        simp [ih hrec]

lemma simulate_annual_loss_length {Ω : Oracle} {row : RiskRow} {n : ℕ}
    {seed : Option ℕ} {ent : ℕ} {ls : List ℚ}
    (h : simulate_annual_loss Ω row n seed ent = .ok ls) : ls.length = n := by
  rw [simulate_annual_loss] at h
  split_ifs at h <;>
    first
      | exact absurd h (by simp)
      | (cases hsf : sample_frequency Ω (row.frequencyModel.getD "Poisson")
            (row.freqParam1.getD 1) row.freqParam2 n (default_rng seed ent) with
         | error e => rw [hsf] at h; exact absurd h (by simp)
         | ok pr =>
           obtain ⟨counts, rng1⟩ := pr
           rw [hsf] at h
           dsimp only at h
           cases hsl : severityLoop Ω (row.severityModel.getD "Lognormal")
               (row.sevParam1.getD 10) (row.sevParam2.getD 1) row.sevParam3
               (row.residualFactor.getD 1) (row.controlEffectiveness.getD 0) counts rng1 with
           | error e => rw [hsl] at h; exact absurd h (by simp)
           | ok pr2 =>
             obtain ⟨losses, rng2⟩ := pr2
             rw [hsl] at h
             simp only [Except.ok.injEq] at h
             rw [← h]
             rw [severityLoop_length hsl, sample_frequency_length hsf])

lemma addVec_length {a b : List ℚ} {n : ℕ} (ha : a.length = n) (hb : b.length = n) :
    (addVec a b).length = n := by
  simp [addVec, ha, hb]

lemma addVec_getD {a b : List ℚ} {n i : ℕ} (ha : a.length = n) (hb : b.length = n)
    (hi : i < n) : (addVec a b).getD i 0 = a.getD i 0 + b.getD i 0 := by
  have hlen : (addVec a b).length = n := addVec_length ha hb
  rw [List.getD_eq_getElem _ _ (by omega : i < (addVec a b).length),
    List.getD_eq_getElem _ _ (by omega : i < a.length),
    List.getD_eq_getElem _ _ (by omega : i < b.length)]
  exact List.getElem_zipWith

lemma dictInsert_of_not_mem {l : List (String × List ℚ)} {k : String} {v : List ℚ}
    (h : k ∉ l.map Prod.fst) : dictInsert l k v = l ++ [(k, v)] := by
  rw [dictInsert, if_neg]
  intro hc
  apply h
  obtain ⟨e, hel, hek⟩ := List.any_eq_true.mp hc
  exact List.mem_map.mpr ⟨e, hel, of_decide_eq_true hek⟩

/-- Loop invariant of `portfolioLoop`: with every upcoming RiskID present and
all dict keys distinct, the loop appends one entry per risk (each of length
`n_sims`) and accumulates the element-wise sum of the new entries on top of
the running total. -/
lemma portfolioLoop_sum (Ω : Oracle) (ents : ℕ → ℕ) (n_sims : ℕ) :
    ∀ (l : List (RiskRow × Option ℕ)) (idx : ℕ) (results : List (String × List ℚ))
      (total : List ℚ) (res : List (String × List ℚ)) (tot : List ℚ),
      (∀ rs ∈ l, rs.1.riskID.isSome) →
      (results.map Prod.fst ++
        l.map (fun rs => "by_risk:" ++ rs.1.riskID.getD "")).Nodup →
      total.length = n_sims →
      portfolioLoop Ω ents n_sims l idx results total = .ok (res, tot) →
      ∃ entries, res = results ++ entries ∧
        entries.length = l.length ∧
        (∀ e ∈ entries, e.2.length = n_sims) ∧
        tot.length = n_sims ∧
        ∀ i, i < n_sims →
          tot.getD i 0 = total.getD i 0 + (entries.map (fun e => e.2.getD i 0)).sum := by
  intro l
  induction l with
  | nil =>
    intro idx results total res tot _ _ htot h
    rw [portfolioLoop] at h
    simp only [Except.ok.injEq, Prod.mk.injEq] at h
    refine ⟨[], by rw [← h.1]; simp, rfl, by simp, by rw [← h.2]; exact htot, ?_⟩
    intro i hi
    rw [← h.2]
    simp
  | cons rs lt ih =>
    intro idx results total res tot hsome hnodup htot h
    obtain ⟨row, sd⟩ := rs
    rw [portfolioLoop] at h
    cases hsim : simulate_annual_loss Ω row n_sims sd (ents idx) with
    | error e => rw [hsim] at h; exact absurd h (by simp)
    | ok risk_losses =>
      rw [hsim] at h
      obtain ⟨rid, hrid⟩ := Option.isSome_iff_exists.mp (hsome (row, sd) (by simp))
      have hkey : row.riskID.getD ("Risk_" ++ toString idx) = rid := by
        rw [hrid]; rfl
      have hkey0 : row.riskID.getD "" = rid := by
        rw [hrid]; rfl
      simp only [List.map_cons] at hnodup
      rw [hkey0] at hnodup
      have hnodup_parts := List.nodup_append.mp hnodup
      have hnotmem : ("by_risk:" ++ rid) ∉ results.map Prod.fst := by
        intro hc
        exact hnodup_parts.2.2 hc (List.mem_cons_self _ _)
      have hlen : risk_losses.length = n_sims := simulate_annual_loss_length hsim
      dsimp only at h
      rw [hkey, dictInsert_of_not_mem hnotmem] at h
      have hnodup2 : ((results ++ [(("by_risk:" ++ rid), risk_losses)]).map Prod.fst ++
          lt.map (fun rs => "by_risk:" ++ rs.1.riskID.getD "")).Nodup := by
        rw [List.map_append, List.append_assoc]
        simpa using hnodup
      obtain ⟨entries, hres, hlenE, hlens, htotlen, hsum⟩ :=
        ih (idx + 1) (results ++ [(("by_risk:" ++ rid), risk_losses)])
          (addVec total risk_losses) res tot
          (fun x hx => hsome x (List.mem_cons_of_mem _ hx)) hnodup2
          (addVec_length htot hlen) h
      refine ⟨(("by_risk:" ++ rid), risk_losses) :: entries, ?_, ?_, ?_, htotlen, ?_⟩
      · rw [hres, List.append_assoc]
        rfl
      · simp [hlenE]
      · intro e he
        rcases List.mem_cons.mp he with he1 | he2
        · rw [he1]
          exact hlen
        · exact hlens e he2
      · intro i hi
        rw [hsum i hi, addVec_getD htot hlen hi]
        simp only [List.map_cons, List.sum_cons]
        ring

lemma string_append_left_cancel {p s t : String} (h : p ++ s = p ++ t) : s = t := by
  apply String.ext
  have hd := congrArg String.data h
  rw [String.data_append, String.data_append] at hd
  exact List.append_cancel_left hd

lemma replicate_zero_getD (n i : ℕ) : (List.replicate n (0 : ℚ)).getD i 0 = 0 := by
  induction n generalizing i with
  | zero => simp [List.getD]
  | succ m ih =>
    cases i with
    | zero => rfl
    | succ j => simpa [List.replicate] using ih j

/-- C1: for every register whose rows all carry a RiskID and whose RiskIDs
are distinct (the Register invariant), a successful `simulate_portfolio` run
returns a portfolio array of length `n_sims`, one per-risk array per register
row, each of length `n_sims`, and the portfolio loss of every trial equals
the sum over the per-risk arrays of that trial's loss — exactly, in the
rational model. -/
theorem C1_portfolio_is_sum_of_risks (Ω : Oracle) (ents : ℕ → ℕ)
    (register : List RiskRow) (n_sims : ℕ) (seed : Option ℕ)
    (hids : ∀ r ∈ register, r.riskID.isSome)
    (hnodup : (register.map RiskRow.riskID).Nodup)
    (port : List ℚ) (byr : List (String × List ℚ))
    (h : simulate_portfolio Ω ents register n_sims seed = .ok (port, byr)) :
    port.length = n_sims ∧
    byr.length = register.length ∧
    (∀ e ∈ byr, e.2.length = n_sims) ∧
    ∀ i, i < n_sims → port.getD i 0 = (byr.map (fun e => e.2.getD i 0)).sum := by
  have main : ∀ (seeds : List (Option ℕ)), seeds.length = register.length →
      ∀ results portfolio_total,
      portfolioLoop Ω ents n_sims (register.zip seeds) 0 [] (List.replicate n_sims 0) =
        .ok (results, portfolio_total) →
      portfolio_total.length = n_sims ∧
      results.length = register.length ∧
      (∀ e ∈ results, e.2.length = n_sims) ∧
      ∀ i, i < n_sims → portfolio_total.getD i 0 =
        (results.map (fun e => e.2.getD i 0)).sum := by
    intro seeds hlen results portfolio_total hloop
    have hzip_some : ∀ rs ∈ register.zip seeds, rs.1.riskID.isSome := by
      intro rs hrs
      exact hids rs.1 (List.of_mem_zip hrs).1
    have hkeys : ((List.map Prod.fst ([] : List (String × List ℚ))) ++
        (register.zip seeds).map (fun rs => "by_risk:" ++ rs.1.riskID.getD "")).Nodup := by
      simp only [List.map_nil, List.nil_append]
      have h1 : (register.zip seeds).map (fun rs => "by_risk:" ++ rs.1.riskID.getD "") =
          ((register.zip seeds).map Prod.fst).map (fun r => "by_risk:" ++ r.riskID.getD "") := by
        rw [List.map_map]
        rfl
      rw [h1, List.map_fst_zip _ _ (le_of_eq hlen.symm)]
      have h2 : register.map (fun r => "by_risk:" ++ r.riskID.getD "") =
          (register.map RiskRow.riskID).map (fun o => "by_risk:" ++ o.getD "") := by
        rw [List.map_map]
        rfl
      rw [h2]
      apply List.Nodup.map_on ?_ hnodup
      intro x hx y hy hxy
      obtain ⟨rx, hrx, hrxid⟩ := List.mem_map.mp hx
      obtain ⟨ry, hry, hryid⟩ := List.mem_map.mp hy
      obtain ⟨sx, hsx⟩ := Option.isSome_iff_exists.mp (hrxid ▸ hids rx hrx)
      obtain ⟨sy, hsy⟩ := Option.isSome_iff_exists.mp (hryid ▸ hids ry hry)
      rw [hsx, hsy] at hxy ⊢
      simp only [Option.getD_some] at hxy
      rw [string_append_left_cancel hxy]
    obtain ⟨entries, hres, hlenE, hlens, htotlen, hsum⟩ :=
      portfolioLoop_sum Ω ents n_sims (register.zip seeds) 0 []
        (List.replicate n_sims 0) results portfolio_total hzip_some hkeys
        (by simp) hloop
    have hres2 : results = entries := by
      rw [hres]
      rfl
    refine ⟨htotlen, ?_, ?_, ?_⟩
    · rw [hres2, hlenE, List.length_zip, hlen, min_self]
    · intro e he
      exact hlens e (hres2 ▸ he)
    · intro i hi
      rw [hsum i hi, replicate_zero_getD, hres2]
      ring
  rw [simulate_portfolio.eq_def] at h
  by_cases hreg : register.length = 0
  · rw [if_pos hreg] at h
    exact Except.noConfusion h
  · rw [if_neg hreg] at h
    cases seed with
    | none =>
      dsimp only at h
      cases hloop : portfolioLoop Ω ents n_sims
          (register.zip (List.replicate register.length none)) 0 []
          (List.replicate n_sims 0) with
      | error e => rw [hloop] at h; exact Except.noConfusion h
      | ok pr =>
        obtain ⟨results, portfolio_total⟩ := pr
        rw [hloop] at h
        simp only [Except.ok.injEq, Prod.mk.injEq] at h
        rw [← h.1, ← h.2]
        exact main (List.replicate register.length none) (by simp)
          results portfolio_total hloop
    | some s =>
      dsimp only at h
      cases hloop : portfolioLoop Ω ents n_sims
          (register.zip ((List.range register.length).map
            (fun i => some (Ω.integers31 s i)))) 0 []
          (List.replicate n_sims 0) with
      | error e => rw [hloop] at h; exact Except.noConfusion h
      | ok pr =>
        obtain ⟨results, portfolio_total⟩ := pr
        rw [hloop] at h
        simp only [Except.ok.injEq, Prod.mk.injEq] at h
        rw [← h.1, ← h.2]
        exact main ((List.range register.length).map (fun i => some (Ω.integers31 s i)))
          (by simp) results portfolio_total hloop

/-- A concrete oracle whose every stream is identically zero, used to
evaluate the pipeline at closed inputs. -/
def zeroOracle : Oracle :=
  ⟨fun _ _ _ => 0, fun _ _ _ _ => 0, fun _ _ _ _ => 0, fun _ _ _ _ => 0,
   fun _ _ _ _ => 0, fun _ _ => 0⟩

/-- A concrete Poisson/Lognormal register row used by closed witnesses. -/
def rowP (id : String) : RiskRow :=
  ⟨some id, none, none, some "Poisson", some 1, none, some "Lognormal",
   some 0, some 1, none, some 0, some 1⟩

lemma pyLower_poisson : pyLower "Poisson" = "poisson" := by decide

lemma pyLower_lognormal : pyLower "Lognormal" = "lognormal" := by decide

/-- C1 witness: the theorem applied to a two-risk register at one trial under
the zero oracle. -/
theorem C1_witness :
    ([(0 : ℚ)]).length = 1 ∧
    ([("by_risk:A", [(0 : ℚ)]), ("by_risk:B", [0])]).length = ([rowP "A", rowP "B"]).length ∧
    (∀ e ∈ [("by_risk:A", [(0 : ℚ)]), ("by_risk:B", [0])], e.2.length = 1) ∧
    (∀ i, i < 1 → ([(0 : ℚ)]).getD i 0 =
      (([("by_risk:A", [(0 : ℚ)]), ("by_risk:B", [0])]).map (fun e => e.2.getD i 0)).sum) :=
  C1_portfolio_is_sum_of_risks zeroOracle (fun _ => 0) [rowP "A", rowP "B"] 1 (some 5)
    (by decide) (by decide) [0] [("by_risk:A", [0]), ("by_risk:B", [0])]
    (by
      norm_num [simulate_portfolio, portfolioLoop, dictInsert, addVec,
        simulate_annual_loss, default_rng, sample_frequency, pyLower_poisson,
        sample_frequency_poisson, severityLoop, zeroOracle, rowP,
        List.range, List.range.loop, List.replicate]
      decide)

/-- With a concrete sub-seed, `simulate_annual_loss` ignores the OS entropy
argument entirely (the generator is keyed from the seed alone). -/
lemma simulate_annual_loss_ent_irrel (Ω : Oracle) (row : RiskRow) (n_sims : ℕ)
    (sv e1 e2 : ℕ) :
    simulate_annual_loss Ω row n_sims (some sv) e1 =
      simulate_annual_loss Ω row n_sims (some sv) e2 := rfl

/-- When every pending sub-seed is concrete, the portfolio loop does not
depend on the entropy source. -/
lemma portfolioLoop_ents_irrel (Ω : Oracle) (ents1 ents2 : ℕ → ℕ) (n_sims : ℕ) :
    ∀ (l : List (RiskRow × Option ℕ)) (idx : ℕ) (results : List (String × List ℚ))
      (total : List ℚ), (∀ rs ∈ l, rs.2.isSome) →
      portfolioLoop Ω ents1 n_sims l idx results total =
        portfolioLoop Ω ents2 n_sims l idx results total := by
  intro l
  induction l with
  | nil => intro idx results total _; rfl
  | cons rs lt ih =>
    intro idx results total hsome
    obtain ⟨row, sd⟩ := rs
    obtain ⟨sdv, hsdv⟩ := Option.isSome_iff_exists.mp (hsome (row, sd) (by simp))
    subst hsdv
    rw [portfolioLoop, portfolioLoop,
      simulate_annual_loss_ent_irrel Ω row n_sims sdv (ents1 idx) (ents2 idx)]
    cases simulate_annual_loss Ω row n_sims (some sdv) (ents2 idx) with
    | error e => rfl
    | ok risk_losses =>
      dsimp only
      exact ih (idx + 1) _ _ (fun x hx => hsome x (List.mem_cons_of_mem _ hx))

/-- C2: two runs of `simulate_portfolio` with the same integer seed produce
identical portfolio and per-risk loss arrays whatever the ambient OS entropy
of either call: the base seed keys the derivation generator, one sub-seed per
risk is drawn from it up front (`base_rng.integers(0, 2**31, size=len)`), and
every risk simulation is keyed by its sub-seed alone.  In the embedding the
only run-to-run variation is the entropy source, so equality for all pairs of
entropy sources is bit-identical reproducibility. -/
theorem C2_seeded_runs_identical (Ω : Oracle) (ents1 ents2 : ℕ → ℕ)
    (register : List RiskRow) (n_sims : ℕ) (s : ℕ) :
    simulate_portfolio Ω ents1 register n_sims (some s) =
      simulate_portfolio Ω ents2 register n_sims (some s) := by
  rw [simulate_portfolio.eq_def, simulate_portfolio.eq_def]
  by_cases hreg : register.length = 0
  · rw [if_pos hreg, if_pos hreg]
  · rw [if_neg hreg, if_neg hreg]
    dsimp only
    rw [portfolioLoop_ents_irrel Ω ents1 ents2 n_sims
      (register.zip ((List.range register.length).map (fun i => some (Ω.integers31 s i))))
      0 [] (List.replicate n_sims 0) ?_]
    intro rs hrs
    obtain ⟨_, hmem⟩ := List.of_mem_zip hrs
    obtain ⟨i, _, hi⟩ := List.mem_map.mp hmem
    rw [← hi]
    rfl

lemma sum_map_scale (l : List ℚ) (a b : ℚ) :
    (l.map (fun s => s * a * b)).sum = l.sum * (a * b) := by
  induction l with
  | nil => simp
  | cons x t ih =>
    simp only [List.map_cons, List.sum_cons, ih]
    ring

/-- Per-trial characterisation of the severity loop: a zero-event trial
produces exactly 0, and a trial with `k > 0` events produces the sum of its
`k` sampled severities scaled by `residual_factor * (1 - control_eff)`. -/
lemma severityLoop_spec {Ω : Oracle} {sm : String} {p1 p2 : ℚ} {p3 : Option ℚ}
    {rf ce : ℚ} : ∀ {ks : List ℕ} {rng : Rng} {ls : List ℚ} {rng2 : Rng},
    severityLoop Ω sm p1 p2 p3 rf ce ks rng = .ok (ls, rng2) →
    ∀ i, i < ks.length →
      (ks.getD i 0 = 0 → ls.getD i 0 = 0) ∧
      (0 < ks.getD i 0 → ∃ sevs rngA rngB,
        sample_severity Ω sm p1 p2 p3 (ks.getD i 0) rngA = .ok (sevs, rngB) ∧
        ls.getD i 0 = sevs.sum * (rf * (1 - ce))) := by
  intro ks
  induction ks with
  | nil =>
    intro rng ls rng2 _ i hi
    exact absurd hi (by simp)
  | cons k kt ih =>
    intro rng ls rng2 h i hi
    rw [severityLoop] at h
    by_cases hk : 0 < k
    · rw [if_pos hk] at h
      cases hs : sample_severity Ω sm p1 p2 p3 k rng with
      | error e => rw [hs] at h; exact Except.noConfusion h
      | ok pr =>
        obtain ⟨sevs, rng1⟩ := pr
        rw [hs] at h
        dsimp only at h
        cases hrec : severityLoop Ω sm p1 p2 p3 rf ce kt rng1 with
        | error e => rw [hrec] at h; exact Except.noConfusion h
        | ok pr2 =>
          obtain ⟨rest, rng3⟩ := pr2
          rw [hrec] at h
          simp only [Except.ok.injEq, Prod.mk.injEq] at h
          rw [← h.1]
          cases i with
          | zero =>
            simp only [List.getD_cons_zero]
            refine ⟨fun hzero => absurd hzero (by omega), fun _ => ⟨sevs, rng, rng1, hs, ?_⟩⟩
            exact sum_map_scale sevs rf (1 - ce)
          | succ j =>
            have hj : j < kt.length := by
              simpa using Nat.lt_of_succ_lt_succ hi
            simp only [List.getD_cons_succ]
            exact ih hrec j hj
    · rw [if_neg hk] at h
      cases hrec : severityLoop Ω sm p1 p2 p3 rf ce kt rng with
      | error e => rw [hrec] at h; exact Except.noConfusion h
      | ok pr2 =>
        obtain ⟨rest, rng3⟩ := pr2
        rw [hrec] at h
        simp only [Except.ok.injEq, Prod.mk.injEq] at h
        rw [← h.1]
        cases i with
        | zero =>
          simp only [List.getD_cons_zero]
          exact ⟨fun _ => by simp, fun hpos => absurd hpos (by omega)⟩
        | succ j =>
          have hj : j < kt.length := by
            simpa using Nat.lt_of_succ_lt_succ hi
          simp only [List.getD_cons_succ]
          exact ih hrec j hj

/-- C6: an out-of-range ResidualFactor or ControlEffectiveness makes
`simulate_annual_loss` return the validation error, with a message that does
not depend on the random oracle at all (the checks run before any frequency
or severity sampling); and on a successful run each trial's loss is the sum
of that trial's sampled severities scaled by
`residual_factor * (1 - control_effectiveness)`, with zero-event trials
producing exactly 0. -/
theorem C6_validation_and_trial_losses :
    (∀ (row : RiskRow) (n_sims : ℕ) (seed : Option ℕ) (ent : ℕ),
      (¬(0 ≤ row.residualFactor.getD 1 ∧ row.residualFactor.getD 1 ≤ 1) ∨
       ¬(0 ≤ row.controlEffectiveness.getD 0 ∧ row.controlEffectiveness.getD 0 ≤ 1)) →
      ∃ msg, ∀ Ω : Oracle, simulate_annual_loss Ω row n_sims seed ent = .error msg) ∧
    (∀ (Ω : Oracle) (row : RiskRow) (n_sims : ℕ) (seed : Option ℕ) (ent : ℕ)
      (losses : List ℚ),
      simulate_annual_loss Ω row n_sims seed ent = .ok losses →
      ∃ counts rng1,
        sample_frequency Ω (row.frequencyModel.getD "Poisson") (row.freqParam1.getD 1)
          row.freqParam2 n_sims (default_rng seed ent) = .ok (counts, rng1) ∧
        counts.length = n_sims ∧
        ∀ i, i < n_sims →
          (counts.getD i 0 = 0 → losses.getD i 0 = 0) ∧
          (0 < counts.getD i 0 → ∃ sevs rngA rngB,
            sample_severity Ω (row.severityModel.getD "Lognormal") (row.sevParam1.getD 10)
              (row.sevParam2.getD 1) row.sevParam3 (counts.getD i 0) rngA = .ok (sevs, rngB) ∧
            losses.getD i 0 = sevs.sum *
              (row.residualFactor.getD 1 * (1 - row.controlEffectiveness.getD 0)))) := by
  constructor
  · intro row n_sims seed ent hbad
    by_cases hrf : 0 ≤ row.residualFactor.getD 1 ∧ row.residualFactor.getD 1 ≤ 1
    · have hce : ¬(0 ≤ row.controlEffectiveness.getD 0 ∧
          row.controlEffectiveness.getD 0 ≤ 1) := by
        rcases hbad with hb | hb
        · exact absurd hrf hb
        · exact hb
      refine ⟨"ControlEffectiveness must be in [0, 1]", fun Ω => ?_⟩
      rw [simulate_annual_loss]
      rw [if_neg (not_not_intro hrf), if_pos hce]
    · refine ⟨"ResidualFactor must be in [0, 1]", fun Ω => ?_⟩
      rw [simulate_annual_loss]
      rw [if_pos hrf]
  · intro Ω row n_sims seed ent losses h
    rw [simulate_annual_loss] at h
    split_ifs at h <;>
      first
        | exact Except.noConfusion h
        | (cases hsf : sample_frequency Ω (row.frequencyModel.getD "Poisson")
              (row.freqParam1.getD 1) row.freqParam2 n_sims (default_rng seed ent) with
           | error e => rw [hsf] at h; exact Except.noConfusion h
           | ok pr =>
             obtain ⟨counts, rng1⟩ := pr
             rw [hsf] at h
             dsimp only at h
             cases hsl : severityLoop Ω (row.severityModel.getD "Lognormal")
                 (row.sevParam1.getD 10) (row.sevParam2.getD 1) row.sevParam3
                 (row.residualFactor.getD 1) (row.controlEffectiveness.getD 0) counts rng1 with
             | error e => rw [hsl] at h; exact Except.noConfusion h
             | ok pr2 =>
               obtain ⟨ls, rng2⟩ := pr2
               rw [hsl] at h
               simp only [Except.ok.injEq] at h
               subst h
               have hclen : counts.length = n_sims := sample_frequency_length hsf
               refine ⟨counts, rng1, rfl, hclen, ?_⟩
               intro i hi
               exact severityLoop_spec hsl i (by omega))

/-- Oracle drawing two events per trial and severity 7 per event, for closed
evaluations of the frequency/severity composition. -/
def sevenOracle : Oracle :=
  ⟨fun _ _ _ => 2, fun _ _ _ _ => 0, fun _ _ _ _ => 7, fun _ _ _ _ => 0,
   fun _ _ _ _ => 0, fun _ _ => 0⟩

/-- A register row with ResidualFactor 2, outside [0, 1]. -/
def badRow : RiskRow :=
  ⟨some "BAD", none, none, some "Poisson", some 1, none, some "Lognormal",
   some 0, some 1, none, some 0, some 2⟩

/-- A valid row with residual factor 1/2 and control effectiveness 1/2. -/
def goodRow : RiskRow :=
  ⟨some "G", none, none, some "Poisson", some 1, none, some "Lognormal",
   some 0, some 1, none, some (1/2), some (1/2)⟩

/-- C6 witness: the validation half applied to `badRow`, and the trial-loss
half applied to a one-trial run in which two severities of 7 are drawn and
scaled by (1/2) * (1 - 1/2), giving the loss array [7/2]. -/
theorem C6_witness :
    (∃ msg, ∀ Ω : Oracle, simulate_annual_loss Ω badRow 3 (some 1) 0 = .error msg) ∧
    (∃ counts rng1,
      sample_frequency sevenOracle (goodRow.frequencyModel.getD "Poisson")
        (goodRow.freqParam1.getD 1) goodRow.freqParam2 1 (default_rng (some 3) 0) =
          .ok (counts, rng1) ∧
      counts.length = 1 ∧
      ∀ i, i < 1 →
        (counts.getD i 0 = 0 → ([(7 : ℚ)/2]).getD i 0 = 0) ∧
        (0 < counts.getD i 0 → ∃ sevs rngA rngB,
          sample_severity sevenOracle (goodRow.severityModel.getD "Lognormal")
            (goodRow.sevParam1.getD 10) (goodRow.sevParam2.getD 1) goodRow.sevParam3
            (counts.getD i 0) rngA = .ok (sevs, rngB) ∧
          ([(7 : ℚ)/2]).getD i 0 = sevs.sum *
            (goodRow.residualFactor.getD 1 * (1 - goodRow.controlEffectiveness.getD 0)))) :=
  ⟨C6_validation_and_trial_losses.1 badRow 3 (some 1) 0 (by norm_num [badRow]),
   C6_validation_and_trial_losses.2 sevenOracle goodRow 1 (some 3) 0 [7/2]
     (by
       norm_num [simulate_annual_loss, default_rng, sample_frequency, pyLower_poisson,
         pyLower_lognormal, sample_frequency_poisson, severityLoop, sample_severity,
         sample_severity_lognormal, sevenOracle, goodRow, List.range, List.range.loop])⟩

/-- C9: `sample_severity_pert` raises its parameter-validation error whenever
`min ≤ mode ≤ max` fails; the degenerate case min = mode = max returns the
constant for every draw; and for every valid parameterisation, provided the
underlying Beta primitive draws in [0,1] (numpy's guarantee), every sampled
severity lies in [min, max]. -/
theorem C9_pert_validation_degenerate_bounds :
    (∀ (Ω : Oracle) (min_val mode max_val : ℚ) (n_events : ℕ) (rng : Rng),
      ¬(min_val ≤ mode ∧ mode ≤ max_val) →
      sample_severity_pert Ω min_val mode max_val n_events rng =
        .error "PERT requires min <= mode <= max") ∧
    (∀ (Ω : Oracle) (c : ℚ) (n_events : ℕ) (rng : Rng),
      sample_severity_pert Ω c c c n_events rng = .ok (List.replicate n_events c, rng)) ∧
    (∀ (Ω : Oracle), (∀ k p a b, 0 ≤ Ω.betaDraw k p a b ∧ Ω.betaDraw k p a b ≤ 1) →
      ∀ (min_val mode max_val : ℚ) (n_events : ℕ) (rng : Rng) (out : List ℚ) (rng2 : Rng),
      min_val ≤ mode → mode ≤ max_val →
      sample_severity_pert Ω min_val mode max_val n_events rng = .ok (out, rng2) →
      ∀ x ∈ out, min_val ≤ x ∧ x ≤ max_val) := by
  refine ⟨?_, ?_, ?_⟩
  · intro Ω min_val mode max_val n_events rng hbad
    rw [sample_severity_pert, if_pos hbad]
  · intro Ω c n_events rng
    rw [sample_severity_pert, if_neg (not_not_intro ⟨le_refl c, le_refl c⟩), if_pos rfl]
  · intro Ω hbeta min_val mode max_val n_events rng out rng2 h1 h2 h
    have hminmax : min_val ≤ max_val := le_trans h1 h2
    rw [sample_severity_pert] at h
    rw [if_neg (not_not_intro ⟨h1, h2⟩)] at h
    by_cases hdeg : min_val = max_val
    · rw [if_pos hdeg] at h
      simp only [Except.ok.injEq, Prod.mk.injEq] at h
      intro x hx
      rw [← h.1] at hx
      have hx' := List.eq_of_mem_replicate hx
      rw [hx']
      exact ⟨le_refl _, hminmax⟩
    · rw [if_neg hdeg] at h
      by_cases hn : n_events = 0
      · rw [if_pos hn] at h
        simp only [Except.ok.injEq, Prod.mk.injEq] at h
        intro x hx
        rw [← h.1] at hx
        exact absurd hx (by simp)
      · rw [if_neg hn] at h
        dsimp only at h
        have hcommon : ∀ (a b : ℚ) (rp : Rng),
            Except.ok ((List.range n_events).map
              (fun i => min_val + Ω.betaDraw rng.key (rng.pos + i) a b *
                (max_val - min_val)), rp) =
              (Except.ok (out, rng2) : Except String (List ℚ × Rng)) →
            ∀ x ∈ out, min_val ≤ x ∧ x ≤ max_val := by
          intro a b rp hok x hx
          simp only [Except.ok.injEq, Prod.mk.injEq] at hok
          rw [← hok.1] at hx
          obtain ⟨i, _, hxval⟩ := List.mem_map.mp hx
          obtain ⟨hb0, hb1⟩ := hbeta rng.key (rng.pos + i) a b
          have hΔ : 0 ≤ max_val - min_val := by linarith
          constructor
          · nlinarith [hxval]
          · nlinarith [hxval]
        split_ifs at h <;>
          first
            | exact Except.noConfusion h
            | exact hcommon _ _ _ h

/-- C9 witness: the validation branch at (2, 1, 3), the degenerate constant
at PERT(100000, 100000, 100000), and the bounds at the spec's
PERT(50000, 100000, 300000) example under the zero-draw oracle (every draw
lands at the minimum, inside [50000, 300000]). -/
theorem C9_witness :
    sample_severity_pert zeroOracle 2 1 3 5 ⟨0, 0⟩ =
      .error "PERT requires min <= mode <= max" ∧
    sample_severity_pert zeroOracle 100000 100000 100000 3 ⟨0, 0⟩ =
      .ok (List.replicate 3 100000, ⟨0, 0⟩) ∧
    (∀ x ∈ [(50000 : ℚ)], 50000 ≤ x ∧ x ≤ 300000) :=
  ⟨C9_pert_validation_degenerate_bounds.1 zeroOracle 2 1 3 5 ⟨0, 0⟩ (by norm_num),
   C9_pert_validation_degenerate_bounds.2.1 zeroOracle 100000 3 ⟨0, 0⟩,
   C9_pert_validation_degenerate_bounds.2.2 zeroOracle
     (fun k p a b => by norm_num [zeroOracle]) 50000 100000 300000 1 ⟨0, 0⟩
     [50000] ⟨0, 1⟩ (by norm_num) (by norm_num)
     (by
       norm_num [sample_severity_pert, zeroOracle, List.range, List.range.loop])⟩

/-- A validated one-risk register whose RiskID itself starts with the
"by_risk:" column prefix.  `col.replace("by_risk:", "")` strips every
occurrence, so the simulated column "by_risk:by_risk:X" maps back to the id
"X", which no register row carries — the scenario of a simulated risk absent
from the register. -/
def trickFrame : RegisterFrame :=
  ⟨["RiskID", "Category", "FrequencyModel", "FreqParam1", "SeverityModel",
    "SevParam1", "SevParam2"],
   [⟨some "by_risk:X", some "Cyber", none, some "Poisson", some 1, none,
     some "Lognormal", some 0, some 1, none, some 0, some 1⟩]⟩

/-- C5 counterexample: on `trickFrame` the risk "by_risk:X" is simulated, its
column maps back to the absent id "X", and `risk_register.quantify_register`
returns successfully with only the PORTFOLIO_TOTAL row: the risk is silently
dropped — no warning is recorded anywhere in the function (its source has no
warning call) and no error is raised, contradicting the claim that such a
risk is reported as a data-integrity warning rather than silently dropped. -/
theorem C5_counterexample :
    rr_quantify_register zeroOracle (fun _ => 0) trickFrame 1 (some 2) =
      .ok [portfolioTotalRow [0] 0 0 0 0] ∧
    (portfolioTotalRow [0] 0 0 0 0).riskID = "PORTFOLIO_TOTAL" := by
  constructor
  · have hval : ¬¬(validate_register_format trickFrame).1 = true := by decide
    have hsim : simulate_portfolio zeroOracle (fun _ => 0) trickFrame.rows 1 (some 2) =
        .ok ([0], [("by_risk:by_risk:X", [0])]) := by
      norm_num [simulate_portfolio, portfolioLoop, dictInsert, addVec,
        simulate_annual_loss, default_rng, sample_frequency, pyLower_poisson,
        sample_frequency_poisson, severityLoop, zeroOracle, trickFrame,
        List.range, List.range.loop, List.replicate]
      decide
    have hcols : List.filter (fun e => pyStartsWith e.1 "by_risk:")
        [("by_risk:by_risk:X", [(0 : ℚ)])] = [("by_risk:by_risk:X", [0])] := by decide
    have hfil : trickFrame.rows.filter
        (fun r => r.riskID = some (pyReplace "by_risk:by_risk:X" "by_risk:" "")) = [] := by
      decide
    have hq : quantRows zeroOracle trickFrame [("by_risk:by_risk:X", [(0 : ℚ)])] =
        .ok [] := by
      rw [quantRows, hfil]
      rw [quantRows]
    have hvar95 : var [(0 : ℚ)] (95 / 100) = .ok 0 := by
      norm_num [var, np_percentile, np_sort, List.insertionSort, List.orderedInsert]
    have hvar99 : var [(0 : ℚ)] (99 / 100) = .ok 0 := by
      norm_num [var, np_percentile, np_sort, List.insertionSort, List.orderedInsert]
    have htvar95 : tvar [(0 : ℚ)] (95 / 100) = .ok 0 := by
      norm_num [tvar, var, np_percentile, np_sort, np_mean,
        List.insertionSort, List.orderedInsert]
    have htvar99 : tvar [(0 : ℚ)] (99 / 100) = .ok 0 := by
      norm_num [tvar, var, np_percentile, np_sort, np_mean,
        List.insertionSort, List.orderedInsert]
    rw [rr_quantify_register, if_neg hval, hsim]
    dsimp only
    rw [hcols, hq]
    dsimp only
    rw [hvar95, hvar99, htvar95, htvar99]
    rfl
  · rfl

/-- C5 amended: when a simulated column's id is absent from the register, the
exported `io.quantify_register` loop records the data-integrity warning for
that id and carries on with the remaining columns, while the
`risk_register.quantify_register` loop silently skips the column — its
result is the same as if the column were not there at all; neither path
raises an error. -/
theorem C5_missing_risk_warning_vs_skip :
    (∀ (rows : List (RiskRow × Option SimCols)) (warns : List String)
      (col : String) (losses : List ℚ) (rest : List (String × List ℚ)),
      (¬ ∃ rp ∈ rows, rp.1.riskID = some (pyReplace col "by_risk:" "")) →
      ioQuantLoop rows warns ((col, losses) :: rest) =
        ioQuantLoop rows
          (warns ++ ["Risk " ++ pyReplace col "by_risk:" "" ++
            " in simulation but not in register"]) rest) ∧
    (∀ (Ω : Oracle) (frame : RegisterFrame) (col : String) (losses : List ℚ)
      (rest : List (String × List ℚ)),
      (∀ r ∈ frame.rows, r.riskID ≠ some (pyReplace col "by_risk:" "")) →
      quantRows Ω frame ((col, losses) :: rest) = quantRows Ω frame rest) := by
  constructor
  · intro rows warns col losses rest hmiss
    rw [ioQuantLoop, if_neg]
    intro hc
    apply hmiss
    obtain ⟨rp, hrp, heq⟩ := List.any_eq_true.mp hc
    exact ⟨rp, hrp, of_decide_eq_true heq⟩
  · intro Ω frame col losses rest hmiss
    rw [quantRows]
    have hfil : frame.rows.filter
        (fun r => r.riskID = some (pyReplace col "by_risk:" "")) = [] := by
      rw [List.filter_eq_nil]
      intro r hr
      simpa using hmiss r hr
    rw [hfil]

/-- C5 witness: the amended theorem applied to the "by_risk:by_risk:X"
column against an empty row table (io loop) and against `trickFrame`
(risk_register loop). -/
theorem C5_witness :
    ioQuantLoop [] [] [("by_risk:by_risk:X", [(0 : ℚ)])] =
      ioQuantLoop []
        ([] ++ ["Risk " ++ pyReplace "by_risk:by_risk:X" "by_risk:" "" ++
          " in simulation but not in register"]) [] ∧
    quantRows zeroOracle trickFrame [("by_risk:by_risk:X", [(0 : ℚ)])] =
      quantRows zeroOracle trickFrame [] :=
  ⟨C5_missing_risk_warning_vs_skip.1 [] [] "by_risk:by_risk:X" [0] [] (by simp),
   C5_missing_risk_warning_vs_skip.2 zeroOracle trickFrame "by_risk:by_risk:X" [0] []
     (by decide)⟩

end RiskMC
